import Mathlib

/-!
# Verification of the DataToVideo core (rasterization engine, slide compositor, chunk windower)

Shallow embedding of the Rust sources under `crates/to_video`:

* `src/imageproc/definitions.rs`  — the `Clamp` saturating conversions;
* `src/imageproc/drawing/mod.rs`  — `draw_if_in_bounds`, `BresenhamLineIter`,
  `draw_ellipse`, `plot_wu_line`, `Plotter`;
* `src/imageproc/drawing/draw_mut.rs` — the `DrawMut` drawing operations;
* `src/video/mod.rs`    — `VideoBuilder::build` (the chunk windower);
* `src/video/config.rs` — `VideoConfigBuilder::build`;
* `src/video/slide.rs`  — `Slide::generation`;
* `src/color.rs`        — `Color::try_from` and the static name table.

Modelling conventions:

* Rust `f32` values are embedded as exact rationals `ℚ`.  All float expressions
  reachable in the theorems below involve only +, -, *, / and comparisons on
  dyadic rationals small enough to be exact in `f32`, except where noted
  (the Bézier arc-length square root is abstracted as a function parameter).
* Rust `as i32` float-to-int casts truncate toward zero; `f32::round` rounds
  half away from zero.  Saturation of casts at the `i32` range bounds is not
  modelled (all inputs considered stay far inside the range).
* Machine integers are embedded as `Int`/`Nat`; `u32` wrapping arithmetic
  (release-profile semantics) is written with an explicit `% 2^32`.
* An image buffer is a total function `Int → Int → α` together with its
  dimensions, so that an out-of-bounds `put_pixel` (which panics in the `image`
  crate) becomes an observable write at an out-of-bounds coordinate.
* A Rust `panic!` is modelled by a `Bool` "completed normally" flag paired with
  the buffer state at the panic point.
-/

/-! ## Numeric clamp utility (`imageproc/definitions.rs`) -/

/-- `impl Clamp<i32> for u8` from `implement_clamp!(i32, u8, ...)`:
`if x < 255 { if x > 0 { x } else { 0 } } else { 255 }`. -/
def clampI32U8 (x : Int) : Int :=
  if x < 255 then (if x > 0 then x else 0) else 255

/-- `impl Clamp<i16> for u8`. -/
def clampI16U8 (x : Int) : Int :=
  if x < 255 then (if x > 0 then x else 0) else 255

/-- `impl Clamp<u16> for u8` (the source type is unsigned, embedded as `Nat`). -/
def clampU16U8 (x : Nat) : Nat :=
  if x < 255 then (if x > 0 then x else 0) else 255

/-- `impl Clamp<u32> for u8`. -/
def clampU32U8 (x : Nat) : Nat :=
  if x < 255 then (if x > 0 then x else 0) else 255

/-- `impl Clamp<i32> for u16`: `if x < 65535 { if x > 0 { x } else { 0 } } else { 65535 }`. -/
def clampI32U16 (x : Int) : Int :=
  if x < 65535 then (if x > 0 then x else 0) else 65535

/-- `impl Clamp<i32> for i16`:
`if x < 32767 { if x > -32768 { x } else { -32768 } } else { 32767 }`. -/
def clampI32I16 (x : Int) : Int :=
  if x < 32767 then (if x > -32768 then x else -32768) else 32767

/-- `implement_identity_clamp!`: `Clamp<T> for T` returns its argument. -/
def clampIdentity (x : Int) : Int := x

/-! ## Chunk windower (`video/mod.rs`, `VideoBuilder::build`) -/

/-- The starting indices produced by `(0..len - overlap).step_by(step - overlap)`.
With `d := step - overlap ≥ 1` the Rust iterator yields `0, d, 2*d, …` while
strictly below `len - overlap`; the count of such indices is
`⌈(len - overlap) / d⌉`.  (Rust `step_by` panics for `d = 0`; every use below
assumes `step > overlap`, matching the `VideoConfigBuilder::build` guard.) -/
def chunkStarts (len step overlap : Nat) : List Nat :=
  let n := len - overlap
  let d := step - overlap
  (List.range ((n + d - 1) / d)).map (· * d)

/-- The half-open index windows spanned by the chunks:
each start `i` spans `[i, min (i + step) len)`. -/
def chunkWindows (len step overlap : Nat) : List (Nat × Nat) :=
  (chunkStarts len step overlap).map fun i => (i, min (i + step) len)

/-- `VideoBuilder::build`: fails on an empty slide list, fails when
`len < overlap`, otherwise cuts `slides[i..min(i+step, len)]` for each start. -/
def videoBuild {σ : Type} (slides : List σ) (step overlap : Nat) :
    Except String (List (List σ)) :=
  if slides.isEmpty then .error "slides data is empty"
  else
    let len := slides.length
    if len < overlap then .error "slides data is shorter than overlap"
    else .ok ((chunkStarts len step overlap).map fun i =>
      (slides.drop i).take (min (i + step) len - i))

/-! ## Configuration build (`video/config.rs`, `VideoConfigBuilder::build`) -/

/-- The distinct failure cases of `VideoConfigBuilder::build`, in source order. -/
inductive ConfigError where
  /-- `"width_screen % width_slides != 0; ..."` -/
  | invalidWidth : ConfigError
  /-- `"step is shorter than overlap"` -/
  | invalidStep : ConfigError
  /-- `"work_dir is set but does not exist"` -/
  | workDirMissing : ConfigError
  /-- `"Font is set but does not exist"` -/
  | fontMissing : ConfigError
  /-- `"Font not set"` -/
  | fontNotSet : ConfigError
deriving DecidableEq, Repr

/-- The numeric fields of the built `VideoConfig` that the claims mention. -/
structure VideoConfigOut where
  screenW : Nat
  widthSlides : Nat
  step : Nat
  overlap : Nat
deriving DecidableEq, Repr

/-- `VideoConfigBuilder::build`.  The filesystem checks on `work_dir` and
`font` are modelled by `Option Bool` fields: `none` means the builder field is
unset, `some e` means it is set and `e` records whether the path exists.
An unset `work_dir` falls back to a freshly created default directory (always
succeeds).  `widthSlides = 0` would make `screen.0 % width_slides` panic in
Rust; the theorems below therefore assume `0 < widthSlides`. -/
def videoConfigBuild (screenW widthSlides step : Nat)
    (workDir font : Option Bool) : Except ConfigError VideoConfigOut :=
  if screenW % widthSlides ≠ 0 then .error .invalidWidth
  else
    let overlap := screenW / widthSlides
    if step ≤ overlap then .error .invalidStep
    else
      match workDir with
      | some false => .error .workDirMissing
      | _ =>
        match font with
        | some true => .ok ⟨screenW, widthSlides, step, overlap⟩
        | some false => .error .fontMissing
        | none => .error .fontNotSet

/-! ## Slide generation (`video/slide.rs`) -/

/-- `Position { left, top, height }` (`left`/`top` are `i32`, `height` is `u32`). -/
structure Position where
  left : Int
  top : Int
  height : Nat
deriving DecidableEq, Repr

/-- A 3-channel `Color([u8; 3])` (`color.rs`); channels embedded as `Nat`. -/
structure Color where
  r : Nat
  g : Nat
  b : Nat
deriving DecidableEq, Repr

/-- The `Operation` template variants (`video/slide.rs`). -/
inductive Operation where
  | image (pos : Position) (zIndex : Nat)
  | text (scale : ℚ) (color : Color) (pos : Position) (zIndex : Nat)
  | color (color : Color) (pos : Position) (zIndex : Nat)
deriving DecidableEq, Repr

/-- The concrete `Element` variants (`video/slide.rs`). -/
inductive Element where
  | image (path : String) (pos : Position)
  | text (content : String) (maxScale : ℚ) (color : Color) (pos : Position)
  | color (color : Color) (pos : Position)
deriving DecidableEq, Repr

/-- The two data-exhaustion error strings of `Slide::generation`. -/
inductive GenError where
  /-- `"图片数据不足"` — ran out of data at an `Image` operation. -/
  | insufficientImageData : GenError
  /-- `"文本数据不足"` — ran out of data at a `Text` operation. -/
  | insufficientTextData : GenError
deriving DecidableEq, Repr

/-- `Slide::generation`: walks the operations in declared order, pulling the
next data string for `Image` and `Text` and none for `Color`; the
`collect::<Result<_>>` short-circuits at the first exhaustion error. -/
def generation : List Operation → List String → Except GenError (List Element)
  | [], _ => .ok []
  | .image pos _ :: ops, datas =>
    match datas with
    | [] => .error .insufficientImageData
    | d :: ds => (generation ops ds).map (Element.image d pos :: ·)
  | .text scale color pos _ :: ops, datas =>
    match datas with
    | [] => .error .insufficientTextData
    | d :: ds => (generation ops ds).map (Element.text d scale color pos :: ·)
  | .color color pos _ :: ops, datas =>
    (generation ops datas).map (Element.color color pos :: ·)

/-- Number of operations that consume a data string (`Image` and `Text`). -/
def nonColorCount : List Operation → Nat
  | [] => 0
  | .image _ _ :: ops => nonColorCount ops + 1
  | .text _ _ _ _ :: ops => nonColorCount ops + 1
  | .color _ _ _ :: ops => nonColorCount ops

/-! ## Color parsing (`color.rs`) -/

/-- The two error strings of `Color::try_from(&str)`. -/
inductive ColorError where
  /-- `"value starts_with # but not a color"` -/
  | hashNotColor : ColorError
  /-- `"value not a color"` -/
  | notAColor : ColorError
deriving DecidableEq, Repr

/-- Hex digit recognizer matching `char::to_digit(16)`. -/
def isHexDigit (c : Char) : Bool :=
  ('0' ≤ c ∧ c ≤ '9') ∨ ('a' ≤ c ∧ c ≤ 'f') ∨ ('A' ≤ c ∧ c ≤ 'F')

/-- Value of a hex digit, as in `char::to_digit(16)`. -/
def hexVal (c : Char) : Nat :=
  if '0' ≤ c ∧ c ≤ '9' then c.toNat - '0'.toNat
  else if 'a' ≤ c ∧ c ≤ 'f' then c.toNat - 'a'.toNat + 10
  else c.toNat - 'A'.toNat + 10

/-- Digit-accumulation loop of `u8::from_str_radix(s, 16)`: each digit is
folded in with overflow checks (`checked_mul`/`checked_add` against `u8::MAX`). -/
def u8Radix16Digits : List Char → Nat → Option Nat
  | [], acc => some acc
  | c :: rest, acc =>
    if isHexDigit c then
      let v := acc * 16 + hexVal c
      if v > 255 then none else u8Radix16Digits rest v
    else none

/-- `u8::from_str_radix(s, 16)` (Rust `core::num`): an empty string fails; a
leading `'+'` is skipped (a `'-'` is rejected for unsigned types, and a bare
sign with no digits is rejected); the remaining characters must all be hex
digits and the value must fit in `u8`.  Strings are modelled as ASCII
character lists (every input considered below is ASCII, so byte indexing in
the caller agrees with character indexing). -/
def u8FromStrRadix16 (s : List Char) : Option Nat :=
  match s with
  | [] => none
  | c :: rest =>
    if c = '+' then
      match rest with
      | [] => none
      | _ => u8Radix16Digits rest 0
    else if c = '-' then none
    else u8Radix16Digits (c :: rest) 0

/-- The static `COLOR` name table (`color.rs`).  `HashMap::from` keeps the last
occurrence of a duplicated key; the duplicated keys (`"coral"`, `"crimson"`)
carry identical values, so an association list looked up front-to-back is an
equivalent model. -/
def colorTable : List (String × Color) :=
  [("red", ⟨255, 0, 0⟩), ("blue", ⟨0, 0, 255⟩), ("green", ⟨0, 255, 0⟩),
   ("yellow", ⟨255, 255, 0⟩), ("white", ⟨255, 255, 255⟩), ("black", ⟨0, 0, 0⟩),
   ("gray", ⟨128, 128, 128⟩), ("cyan", ⟨0, 255, 255⟩), ("magenta", ⟨255, 0, 255⟩),
   ("orange", ⟨255, 165, 0⟩), ("purple", ⟨128, 0, 128⟩), ("pink", ⟨255, 192, 203⟩),
   ("brown", ⟨165, 42, 42⟩), ("lime", ⟨0, 255, 0⟩), ("teal", ⟨0, 128, 128⟩),
   ("maroon", ⟨128, 0, 0⟩), ("olive", ⟨128, 128, 0⟩), ("navy", ⟨0, 0, 128⟩),
   ("aqua", ⟨0, 255, 255⟩), ("silver", ⟨192, 192, 192⟩), ("gold", ⟨255, 215, 0⟩),
   ("violet", ⟨238, 130, 238⟩), ("indigo", ⟨75, 0, 130⟩), ("rose", ⟨255, 192, 203⟩),
   ("crimson", ⟨220, 20, 60⟩), ("coral", ⟨255, 127, 80⟩),
   ("cadetblue", ⟨95, 158, 160⟩), ("chartreuse", ⟨127, 255, 0⟩),
   ("chocolate", ⟨210, 105, 30⟩), ("coral", ⟨255, 127, 80⟩),
   ("cornflowerblue", ⟨100, 149, 237⟩), ("cornsilk", ⟨255, 248, 220⟩),
   ("crimson", ⟨220, 20, 60⟩), ("darkblue", ⟨0, 0, 139⟩),
   ("darkcyan", ⟨0, 139, 139⟩), ("darkgoldenrod", ⟨184, 134, 11⟩),
   ("darkgray", ⟨169, 169, 169⟩), ("darkgreen", ⟨0, 100, 0⟩),
   ("darkkhaki", ⟨189, 183, 107⟩), ("darkmagenta", ⟨139, 0, 139⟩),
   ("darkolivegreen", ⟨85, 107, 47⟩), ("darkorange", ⟨255, 140, 0⟩),
   ("darkorchid", ⟨153, 50, 204⟩)]

/-- Name lookup in the static table, as `COLOR.get(value)`. -/
def colorLookup (s : List Char) : Option Color :=
  (colorTable.find? fun e => e.1.toList = s).map (·.2)

/-- `Color::try_from(&str)` (`color.rs`): a `'#'`-prefixed string is stripped,
must have byte length 6, and its three 2-character slices are parsed with
`u8::from_str_radix(_, 16)`; any other string is looked up in the name table.
(`value.starts_with('#')` is the head test; `strip_prefix` drops the head.) -/
def colorTryFrom (s : List Char) : Except ColorError Color :=
  match s with
  | c :: rest =>
    if c = '#' then
      if rest.length ≠ 6 then .error .hashNotColor
      else
        match u8FromStrRadix16 (rest.take 2),
              u8FromStrRadix16 ((rest.drop 2).take 2),
              u8FromStrRadix16 ((rest.drop 4).take 2) with
        | some r, some g, some b => .ok ⟨r, g, b⟩
        | _, _, _ => .error .hashNotColor
    else
      match colorLookup (c :: rest) with
      | some col => .ok col
      | none => .error .notAColor
  | [] =>
    match colorLookup [] with
    | some col => .ok col
    | none => .error .notAColor

/-- The spec's words for C8, for comparison with the implementation: "a
`'#'`-prefixed 6-hex-digit string". -/
def specIsHashHexColor (s : List Char) : Bool :=
  match s with
  | '#' :: rest => rest.length == 6 && rest.all isHexDigit
  | _ => false

/-- The spec's words for C8: "a name present in the static name-to-color
table". -/
def specIsNamedColor (s : List Char) : Bool :=
  (colorLookup s).isSome

/-! ## Image buffers and pixel writes (`imageproc/drawing/mod.rs`) -/

/-- An image buffer: dimensions plus contents.  The contents are a total
function on `Int × Int` so that an out-of-bounds `put_pixel` — which panics in
the `image` crate — shows up as an observable write at an out-of-bounds
coordinate. -/
structure Img (α : Type) where
  width : Nat
  height : Nat
  pix : Int → Int → α

/-- `put_pixel`: point update of the buffer contents. -/
def Img.putPixel {α : Type} (img : Img α) (x y : Int) (c : α) : Img α :=
  { img with pix := fun a b => if a = x ∧ b = y then c else img.pix a b }

/-- `draw_if_in_bounds` (`drawing/mod.rs`): write the pixel only when
`0 ≤ x < width` and `0 ≤ y < height`. -/
def drawIfInBounds {α : Type} (img : Img α) (x y : Int) (c : α) : Img α :=
  if 0 ≤ x ∧ x < (img.width : Int) ∧ 0 ≤ y ∧ y < (img.height : Int) then
    img.putPixel x y c
  else img

/-- `b` has the same dimensions as `a` and agrees with `a` on every
out-of-bounds coordinate: the formal reading of "writes only pixels inside
`[0,width) × [0,height)`". -/
def SameOutside {α : Type} (a b : Img α) : Prop :=
  b.width = a.width ∧ b.height = a.height ∧
    ∀ x y : Int,
      ¬(0 ≤ x ∧ x < (a.width : Int) ∧ 0 ≤ y ∧ y < (a.height : Int)) →
      b.pix x y = a.pix x y

/-- Rust `as i32` on a float: truncation toward zero (saturation at the `i32`
range bounds is not modelled). -/
def f32toI32 (q : ℚ) : Int := if 0 ≤ q then ⌊q⌋ else ⌈q⌉

/-- `f32::fract`: `self - self.trunc()` (negative for negative inputs). -/
def rustFract (q : ℚ) : ℚ := q - (f32toI32 q : ℚ)

/-- `f32::round`: round half away from zero. -/
def rustRound (q : ℚ) : Int := if 0 ≤ q then ⌊q + 1 / 2⌋ else ⌈q - 1 / 2⌉

/-- `impl Clamp<f32> for u8` from `implement_clamp!(f32, u8, ...)`:
`if x < 255.0 { if x > 0.0 { x as u8 } else { 0 } } else { 255 }` — the
in-range cast `x as u8` truncates the fractional part toward zero.  The
`f64 → u8` instance is the same function of the embedded rational. -/
def clampF32U8 (x : ℚ) : Int :=
  if x < 255 then (if x > 0 then f32toI32 x else 0) else 255

/-- `impl Clamp<f32> for u16` (and the identical `f64 → u16` instance). -/
def clampF32U16 (x : ℚ) : Int :=
  if x < 65535 then (if x > 0 then f32toI32 x else 0) else 65535

/-- The integers `a, a+1, …, b` (empty when `b < a`), as Rust `a..(b+1)`. -/
def intRange (a b : Int) : List Int :=
  (List.range (b + 1 - a).toNat).map fun (k : Nat) => a + (k : Int)

/-! ## Bresenham line iterator (`drawing/mod.rs`) -/

/-- The state of `BresenhamLineIter`. -/
structure BresenhamLineIter where
  dx : ℚ
  dy : ℚ
  x : Int
  y : Int
  error : ℚ
  endX : Int
  isSteep : Bool
  yStep : Int
deriving Repr

/-- `BresenhamLineIter::new`: octant normalization (transpose when steep, then
swap the endpoints so iteration runs left to right), truncating the normalized
endpoints with `as i32`. -/
def BresenhamLineIter.new (start e : ℚ × ℚ) : BresenhamLineIter :=
  let (x0, y0) := start
  let (x1, y1) := e
  let isSteep : Bool := decide (|y1 - y0| > |x1 - x0|)
  let p0 := if isSteep then (y0, x0) else (x0, y0)
  let p1 := if isSteep then (y1, x1) else (x1, y1)
  let q0 := if p0.1 > p1.1 then p1 else p0
  let q1 := if p0.1 > p1.1 then p0 else p1
  let dx := q1.1 - q0.1
  { dx := dx
    dy := |q1.2 - q0.2|
    x := f32toI32 q0.1
    y := f32toI32 q0.2
    error := dx / 2
    endX := f32toI32 q1.1
    isSteep := isSteep
    yStep := if q0.2 < q1.2 then 1 else -1 }

/-- The state advance inside `next`: `x += 1; error -= dy;` and when the error
drops below zero, `y += y_step; error += dx`. -/
def BresenhamLineIter.step (s : BresenhamLineIter) : BresenhamLineIter :=
  let e := s.error - s.dy
  if e < 0 then { s with x := s.x + 1, y := s.y + s.yStep, error := e + s.dx }
  else { s with x := s.x + 1, error := e }

/-- Bounded unfolding of the iterator: each `next` yields `(x, y)` (transposed
back when steep) while `x ≤ end_x`, then advances the state.  The counter is
structural so that runs evaluate by kernel reduction; `run` instantiates it
with `(end_x + 1 - x).toNat`, the exact number of `next` calls that return
`Some` (each call increments `x` by one and `end_x` never changes, so the
counter stays in lockstep with the stopping guard and never cuts the run
short). -/
def BresenhamLineIter.runFrom : BresenhamLineIter → Nat → List (Int × Int)
  | _, 0 => []
  | s, n + 1 =>
    if s.x > s.endX then []
    else (if s.isSteep then (s.y, s.x) else (s.x, s.y)) :: s.step.runFrom n

/-- Running the iterator to exhaustion (collecting every yielded point). -/
def BresenhamLineIter.run (s : BresenhamLineIter) : List (Int × Int) :=
  s.runFrom (s.endX + 1 - s.x).toNat

/-- The pixel sequence of the Bresenham iterator for the given endpoints. -/
def bresenhamPoints (start e : ℚ × ℚ) : List (Int × Int) :=
  (BresenhamLineIter.new start e).run

/-! ## Line segments (`draw_mut.rs`) -/

/-- `draw_line_segment_mut`: paint every iterator pixel that lies in bounds. -/
def drawLineSegmentMut {α : Type} (img : Img α) (start e : ℚ × ℚ) (c : α) : Img α :=
  (bresenhamPoints start e).foldl
    (fun im p =>
      if 0 ≤ p.1 ∧ p.1 < (im.width : Int) ∧ 0 ≤ p.2 ∧ p.2 < (im.height : Int) then
        im.putPixel p.1 p.2 c
      else im)
    img

/-- `Plotter::plot`: transform the coordinate, and if it lands in bounds,
blend the line color with the current pixel at the given weight and write. -/
def plotterPlot {α : Type} (transform : Int → Int → Int × Int)
    (blend : α → α → ℚ → α) (img : Img α) (x y : Int) (c : α) (weight : ℚ) :
    Img α :=
  let t := transform x y
  if 0 ≤ t.1 ∧ t.1 < (img.width : Int) ∧ 0 ≤ t.2 ∧ t.2 < (img.height : Int) then
    img.putPixel t.1 t.2 (blend c (img.pix t.1 t.2) weight)
  else img

/-- `plot_wu_line`: iterate x from start to end keeping a running fractional y;
plot `(x, fy as i32)` with weight `1 - fy.fract()` and `(x, fy as i32 + 1)`
with weight `fy.fract()`.  (When `dx = 0` the loop body runs exactly once and
ends before the gradient is ever added, so its value — infinite or NaN in
`f32`, zero in this embedding — is never observable.) -/
def plotWuLine {α : Type} (transform : Int → Int → Int × Int)
    (blend : α → α → ℚ → α) (img : Img α) (start e : Int × Int) (c : α) :
    Img α :=
  let dx := e.1 - start.1
  let dy := e.2 - start.2
  let gradient : ℚ := (dy : ℚ) / (dx : ℚ)
  ((intRange start.1 e.1).foldl
    (fun (st : Img α × ℚ) x =>
      let im := plotterPlot transform blend st.1 x (f32toI32 st.2) c (1 - rustFract st.2)
      let im := plotterPlot transform blend im x (f32toI32 st.2 + 1) c (rustFract st.2)
      (im, st.2 + gradient))
    (img, (start.2 : ℚ))).1

/-- `draw_antialiased_line_segment_mut`: order the endpoints along the
dominant axis, then run the Wu loop, transposing coordinates when steep. -/
def drawAntialiasedLineSegmentMut {α : Type} (img : Img α) (start e : Int × Int)
    (c : α) (blend : α → α → ℚ → α) : Img α :=
  let (x0, y0) := start
  let (x1, y1) := e
  let isSteep := (y1 - y0).natAbs > (x1 - x0).natAbs
  if isSteep then
    let (x0, y0, x1, y1) := if y0 > y1 then (x1, y1, x0, y0) else (x0, y0, x1, y1)
    plotWuLine (fun x y => (y, x)) blend img (y0, x0) (y1, x1) c
  else
    let (x0, y0, x1, y1) := if x0 > x1 then (x1, y1, x0, y0) else (x0, y0, x1, y1)
    plotWuLine (fun x y => (x, y)) blend img (x0, y0) (x1, y1) c

/-! ## Circles (`draw_mut.rs`) -/

/-- Loop body of `draw_hollow_circle_mut` (midpoint circle, 8-fold symmetry). -/
def hollowCircleLoop {α : Type} (x0 y0 : Int) (c : α) (img : Img α)
    (x y p : Int) : Img α :=
  if _h : x ≤ y then
    let img := drawIfInBounds img (x0 + x) (y0 + y) c
    let img := drawIfInBounds img (x0 + y) (y0 + x) c
    let img := drawIfInBounds img (x0 - y) (y0 + x) c
    let img := drawIfInBounds img (x0 - x) (y0 + y) c
    let img := drawIfInBounds img (x0 - x) (y0 - y) c
    let img := drawIfInBounds img (x0 - y) (y0 - x) c
    let img := drawIfInBounds img (x0 + y) (y0 - x) c
    let img := drawIfInBounds img (x0 + x) (y0 - y) c
    let x' := x + 1
    if p < 0 then hollowCircleLoop x0 y0 c img x' y (p + 2 * x' + 1)
    else hollowCircleLoop x0 y0 c img x' (y - 1) (p + 2 * (x' - (y - 1)) + 1)
  else img
termination_by (y + 1 - x).toNat
decreasing_by all_goals omega

/-- `draw_hollow_circle_mut`. -/
def drawHollowCircleMut {α : Type} (img : Img α) (center : Int × Int)
    (radius : Int) (c : α) : Img α :=
  hollowCircleLoop center.1 center.2 c img 0 radius (1 - radius)

/-- Loop body of `draw_filled_circle_mut` (midpoint circle, filled with four
horizontal line segments per step). -/
def filledCircleLoop {α : Type} (x0 y0 : Int) (c : α) (img : Img α)
    (x y p : Int) : Img α :=
  if _h : x ≤ y then
    let img := drawLineSegmentMut img (((x0 - x : Int) : ℚ), ((y0 + y : Int) : ℚ))
      (((x0 + x : Int) : ℚ), ((y0 + y : Int) : ℚ)) c
    let img := drawLineSegmentMut img (((x0 - y : Int) : ℚ), ((y0 + x : Int) : ℚ))
      (((x0 + y : Int) : ℚ), ((y0 + x : Int) : ℚ)) c
    let img := drawLineSegmentMut img (((x0 - x : Int) : ℚ), ((y0 - y : Int) : ℚ))
      (((x0 + x : Int) : ℚ), ((y0 - y : Int) : ℚ)) c
    let img := drawLineSegmentMut img (((x0 - y : Int) : ℚ), ((y0 - x : Int) : ℚ))
      (((x0 + y : Int) : ℚ), ((y0 - x : Int) : ℚ)) c
    let x' := x + 1
    if p < 0 then filledCircleLoop x0 y0 c img x' y (p + 2 * x' + 1)
    else filledCircleLoop x0 y0 c img x' (y - 1) (p + 2 * (x' - (y - 1)) + 1)
  else img
termination_by (y + 1 - x).toNat
decreasing_by all_goals omega

/-- `draw_filled_circle_mut`. -/
def drawFilledCircleMut {α : Type} (img : Img α) (center : Int × Int)
    (radius : Int) (c : α) : Img α :=
  filledCircleLoop center.1 center.2 c img 0 radius (1 - radius)

/-! ## Midpoint ellipse (`drawing/mod.rs`, `draw_ellipse`) -/

/-- First region of `draw_ellipse` (`while px < py`).  The loop is driven by
fuel: in the source, `px` grows by `2*h2 > 0` each iteration while `py` never
increases, so the loop runs at most `⌈py₀ / (2*h2)⌉` times; the fuel passed by
`drawEllipseGeneric` dominates that bound, and none of the theorems below
depend on the loop running to completion. -/
def ellipseLoop1 {α : Type} (render : Img α → Int → Int → Int → Int → Img α)
    (x0 y0 : Int) (w2 h2 : ℚ) :
    Nat → Img α × Int × Int × ℚ × ℚ × ℚ → Img α × Int × Int × ℚ × ℚ × ℚ
  | 0, st => st
  | fuel + 1, (img, x, y, px, py, p) =>
    if px < py then
      let x := x + 1
      let px := px + 2 * h2
      let (y, py, p) :=
        if p < 0 then (y, py, p + h2 + px)
        else
          let y := y - 1
          let py := py + -(2 * w2)
          (y, py, p + h2 + px - py)
      ellipseLoop1 render x0 y0 w2 h2 fuel (render img x0 y0 x y, x, y, px, py, p)
    else (img, x, y, px, py, p)

/-- Second region of `draw_ellipse` (`while y > 0`). -/
def ellipseLoop2 {α : Type} (render : Img α → Int → Int → Int → Int → Img α)
    (x0 y0 : Int) (w2 h2 : ℚ) (img : Img α) (x y : Int) (px py p : ℚ) : Img α :=
  if _h : y > 0 then
    let y' := y - 1
    let py' := py + -(2 * w2)
    let (x', px', p') :=
      if p > 0 then (x, px, p + w2 - py')
      else (x + 1, px + 2 * h2, p + w2 - py' + (px + 2 * h2))
    ellipseLoop2 render x0 y0 w2 h2 (render img x0 y0 x' y') x' y' px' py' p'
  else img
termination_by y.toNat
decreasing_by omega

/-- `draw_ellipse` (`drawing/mod.rs`): midpoint ellipse walk, invoking the
caller-supplied render callback with `(x0, y0, x, y)` at each step. -/
def drawEllipseGeneric {α : Type} (render : Img α → Int → Int → Int → Int → Img α)
    (img : Img α) (center : Int × Int) (widthRadius heightRadius : Int) : Img α :=
  let x0 := center.1
  let y0 := center.2
  let w2 : ℚ := ((widthRadius * widthRadius : Int) : ℚ)
  let h2 : ℚ := ((heightRadius * heightRadius : Int) : ℚ)
  let x : Int := 0
  let y : Int := heightRadius
  let px : ℚ := 0
  let py : ℚ := 2 * w2 * (y : ℚ)
  let img := render img x0 y0 x y
  let p : ℚ := h2 - w2 * (heightRadius : ℚ) + w2 / 4
  let fuel := (widthRadius * widthRadius * heightRadius).natAbs + 2
  let st := ellipseLoop1 render x0 y0 w2 h2 fuel (img, x, y, px, py, p)
  let img := st.1
  let x := st.2.1
  let y := st.2.2.1
  let px := st.2.2.2.1
  let py := st.2.2.2.2.1
  let p : ℚ := h2 * ((x : ℚ) + 1 / 2) ^ 2 + w2 * (((y - 1) * (y - 1) : Int) : ℚ) - w2 * h2
  ellipseLoop2 render x0 y0 w2 h2 img x y px py p

/-- `draw_hollow_ellipse_mut`: delegates to the circle algorithm for equal
radii, otherwise renders the four axis-mirrored quadrant pixels per step. -/
def drawHollowEllipseMut {α : Type} (img : Img α) (center : Int × Int)
    (widthRadius heightRadius : Int) (c : α) : Img α :=
  if widthRadius = heightRadius then drawHollowCircleMut img center widthRadius c
  else
    drawEllipseGeneric
      (fun im x0 y0 x y =>
        let im := drawIfInBounds im (x0 + x) (y0 + y) c
        let im := drawIfInBounds im (x0 - x) (y0 + y) c
        let im := drawIfInBounds im (x0 + x) (y0 - y) c
        drawIfInBounds im (x0 - x) (y0 - y) c)
      img center widthRadius heightRadius

/-- `draw_filled_ellipse_mut`: delegates to the circle algorithm for equal
radii, otherwise renders one horizontal span per mirrored pair. -/
def drawFilledEllipseMut {α : Type} (img : Img α) (center : Int × Int)
    (widthRadius heightRadius : Int) (c : α) : Img α :=
  if widthRadius = heightRadius then drawFilledCircleMut img center widthRadius c
  else
    drawEllipseGeneric
      (fun im x0 y0 x y =>
        let im := drawLineSegmentMut im (((x0 - x : Int) : ℚ), ((y0 + y : Int) : ℚ))
          (((x0 + x : Int) : ℚ), ((y0 + y : Int) : ℚ)) c
        drawLineSegmentMut im (((x0 - x : Int) : ℚ), ((y0 - y : Int) : ℚ))
          (((x0 + x : Int) : ℚ), ((y0 - y : Int) : ℚ)) c)
      img center widthRadius heightRadius

/-! ## Polygons (`draw_mut.rs`, `draw_polygon_with_mut`) -/

/-- Intersections contributed by one polygon edge at scanline `y`
(`draw_polygon_with_mut`): a horizontal edge at `y` contributes both endpoint
x's; an edge touching `y` at one endpoint contributes that endpoint's x only
when the other endpoint lies strictly below (`> y`); any other edge spanning
`y` contributes its interpolated crossing, rounded to the nearest integer. -/
def polygonContrib (y : Int) (e : (Int × Int) × (Int × Int)) : List Int :=
  let p0 := e.1
  let p1 := e.2
  if (p0.2 ≤ y ∧ p1.2 ≥ y) ∨ (p1.2 ≤ y ∧ p0.2 ≥ y) then
    if p0.2 = p1.2 then [p0.1, p1.1]
    else if p0.2 = y ∨ p1.2 = y then
      (if p1.2 > y then [p0.1] else []) ++ (if p0.2 > y then [p1.1] else [])
    else
      let fraction : ℚ := ((y - p0.2 : Int) : ℚ) / ((p1.2 - p0.2 : Int) : ℚ)
      let inter : ℚ := (p0.1 : ℚ) + fraction * ((p1.1 - p0.1 : Int) : ℚ)
      [rustRound inter]
  else []

/-- Insertion of one element into a sorted list (ascending). -/
def insertSorted (x : Int) : List Int → List Int
  | [] => [x]
  | y :: ys => if x ≤ y then x :: y :: ys else y :: insertSorted x ys

/-- `sort_unstable()` on an `i32` vector: sorts ascending.  On a totally
ordered type with indistinguishable duplicates the sorted permutation is
unique, so insertion sort is an exact model. -/
def sortAsc (l : List Int) : List Int := l.foldr insertSorted []

/-- `intersections.chunks(2).for_each(...)`: consume the sorted intersections
in consecutive pairs, filling the inclusive span between them clipped to the
buffer width.  A trailing unpaired element makes the source index `range[1]`
out of bounds — a panic, modelled by the `false` flag. -/
def fillPairs {α : Type} (w : Nat) (y : Int) (c : α) :
    Img α → List Int → Img α × Bool
  | img, a :: b :: rest =>
    let lo := min a (w : Int)
    let hi := min b ((w : Int) - 1)
    let img :=
      if lo < (w : Int) ∧ 0 ≤ hi then
        (intRange (max 0 lo) (max 0 hi)).foldl (fun im x => im.putPixel x y c) img
      else img
    fillPairs w y c img rest
  | img, [_] => (img, false)
  | img, [] => (img, true)

/-- The per-scanline loop of `draw_polygon_with_mut`: gather edge
intersections, sort them, and fill consecutive pairs; a pairing panic aborts
the remaining scanlines. -/
def polygonScanlines {α : Type} (w : Nat)
    (edges : List ((Int × Int) × (Int × Int))) (c : α) :
    Img α → List Int → Img α × Bool
  | img, [] => (img, true)
  | img, y :: ys =>
    let inters := sortAsc (edges.flatMap (polygonContrib y))
    match fillPairs w y c img inters with
    | (img, true) => polygonScanlines w edges c img ys
    | (img, false) => (img, false)

/-- `draw_polygon_with_mut`: an empty list is a silent no-op; a list whose
first point equals its last panics (`false` flag) before any write; otherwise
the scanline fill runs over the polygon's y-range clipped into
`[0, height-1]`, and finally every edge (including the implicit closing edge)
is stroked with the caller-supplied plotter.  The source computes the y-range
by folding `min`/`max` from `i32::MAX`/`i32::MIN` over all vertices, which for
a nonempty list equals folding from the first vertex. -/
def drawPolygonWithMut {α : Type} (plotter : Img α → ℚ × ℚ → ℚ × ℚ → α → Img α)
    (img : Img α) (poly : List (Int × Int)) (c : α) : Img α × Bool :=
  match poly with
  | [] => (img, true)
  | p :: rest =>
    if (p :: rest).getLast (List.cons_ne_nil p rest) = p then (img, false)
    else
      let yMinRaw := rest.foldl (fun m q => min m q.2) p.2
      let yMaxRaw := rest.foldl (fun m q => max m q.2) p.2
      let h := (img.height : Int)
      let yMin := max 0 (min yMinRaw (h - 1))
      let yMax := max 0 (min yMaxRaw (h - 1))
      let closed := (p :: rest) ++ [p]
      let edges := closed.zip closed.tail
      match polygonScanlines img.width edges c img (intRange yMin yMax) with
      | (img, false) => (img, false)
      | (img, true) =>
        (edges.foldl
          (fun im e =>
            plotter im ((e.1.1 : ℚ), (e.1.2 : ℚ)) ((e.2.1 : ℚ), (e.2.2 : ℚ)) c)
          img, true)

/-- `draw_polygon_mut`: scanline fill with plain Bresenham edge strokes. -/
def drawPolygonMut {α : Type} (img : Img α) (poly : List (Int × Int)) (c : α) :
    Img α × Bool :=
  drawPolygonWithMut (fun im s e col => drawLineSegmentMut im s e col) img poly c

/-- `draw_antialiased_polygon_mut`: scanline fill with antialiased edge
strokes (`start.0 as i32` etc. truncate the edge endpoints back to integers). -/
def drawAntialiasedPolygonMut {α : Type} (img : Img α) (poly : List (Int × Int))
    (c : α) (blend : α → α → ℚ → α) : Img α × Bool :=
  drawPolygonWithMut
    (fun im s e col =>
      drawAntialiasedLineSegmentMut im (f32toI32 s.1, f32toI32 s.2)
        (f32toI32 e.1, f32toI32 e.2) col blend)
    img poly c

/-- `draw_hallow_polygon_mut`: an empty list is a silent no-op; a one-point
list hits the `poly.len() < 2` panic; first == last panics; otherwise draw a
segment between every consecutive pair plus the closing segment from the
first point to the last. -/
def drawHallowPolygonMut {α : Type} (img : Img α) (poly : List (ℚ × ℚ)) (c : α) :
    Img α × Bool :=
  match poly with
  | [] => (img, true)
  | [_] => (img, false)
  | p :: q :: rest =>
    if (p :: q :: rest).getLast (List.cons_ne_nil p (q :: rest)) = p then (img, false)
    else
      let pts := p :: q :: rest
      let img := (pts.zip pts.tail).foldl (fun im e => drawLineSegmentMut im e.1 e.2 c) img
      (drawLineSegmentMut img p (pts.getLast (List.cons_ne_nil p (q :: rest))) c, true)

/-! ## Rectangles (`draw_mut.rs`; `Rect` is spec-modelled) -/

/-- Modelled from the spec: the file `src/crates/to_video/src/imageproc/rect.rs`
is declared by `imageproc/mod.rs` but absent from the provided sources.
Spec §3: "Rect: defined by top-left corner (signed integers, may be
negative/out-of-canvas) and unsigned width/height.  Derived accessors:
left/right/top/bottom edges.  Supports intersection with another `Rect`,
returning `None` when disjoint."  Right/bottom are the inclusive far edges
(`left + width - 1`, `top + height - 1`), the convention the
`draw_hollow_rect_mut`/`draw_filled_rounded_rect_mut` call sites rely on. -/
structure Rect where
  left : Int
  top : Int
  width : Nat
  height : Nat
deriving DecidableEq, Repr

/-- `Rect::at(left, top).of_size(width, height)`. -/
def Rect.atOf (left top : Int) (width height : Nat) : Rect :=
  ⟨left, top, width, height⟩

/-- Modelled from the spec (missing `rect.rs`): the inclusive right edge. -/
def Rect.right (r : Rect) : Int := r.left + r.width - 1

/-- Modelled from the spec (missing `rect.rs`): the inclusive bottom edge. -/
def Rect.bottom (r : Rect) : Int := r.top + r.height - 1

/-- Modelled from the spec (missing `rect.rs`): intersection of two rects,
`none` when disjoint. -/
def Rect.intersect (a b : Rect) : Option Rect :=
  let l := max a.left b.left
  let t := max a.top b.top
  let rr := min a.right b.right
  let bb := min a.bottom b.bottom
  if rr < l ∨ bb < t then none
  else some ⟨l, t, (rr - l + 1).toNat, (bb - t + 1).toNat⟩

/-- `draw_hollow_rect_mut`: four line segments along the rect edges. -/
def drawHollowRectMut {α : Type} (img : Img α) (rect : Rect) (c : α) : Img α :=
  let l : ℚ := (rect.left : ℚ)
  let r : ℚ := (rect.right : ℚ)
  let t : ℚ := (rect.top : ℚ)
  let b : ℚ := (rect.bottom : ℚ)
  let img := drawLineSegmentMut img (l, t) (r, t) c
  let img := drawLineSegmentMut img (l, b) (r, b) c
  let img := drawLineSegmentMut img (l, t) (l, b) c
  drawLineSegmentMut img (r, t) (r, b) c

/-- `draw_filled_rect_mut`: intersect the rect with the image bounds and fill
the intersection row by row. -/
def drawFilledRectMut {α : Type} (img : Img α) (rect : Rect) (c : α) : Img α :=
  match (Rect.atOf 0 0 img.width img.height).intersect rect with
  | none => img
  | some inter =>
    (List.range inter.height).foldl
      (fun im (dy : Nat) =>
        (List.range inter.width).foldl
          (fun im2 (dx : Nat) =>
            im2.putPixel (inter.left + (dx : Int)) (inter.top + (dy : Int)) c) im)
      img

/-- `i32 as u32` (two's-complement reinterpretation). -/
def u32ofI32 (x : Int) : Nat := (x % (2 ^ 32 : Int)).toNat

/-- Wrapping `u32` subtraction (release-profile semantics of
`rect.width() - 2 * radius as u32`; the debug profile would panic on
underflow). -/
def u32wrapSub (a b : Nat) : Nat :=
  (((a : Int) - (b : Int)) % (2 ^ 32 : Int)).toNat

/-- `draw_filled_rounded_rect_mut`: four filled corner circles plus two filled
bands (top/bottom and left/right), each inset by the radius. -/
def drawFilledRoundedRectMut {α : Type} (img : Img α) (rect : Rect) (radius : Int)
    (c : α) : Img α :=
  let left := rect.left
  let right := rect.right
  let top := rect.top
  let bottom := rect.bottom
  let img := drawFilledCircleMut img (left + radius, top + radius) radius c
  let img := drawFilledCircleMut img (left + radius, bottom - radius) radius c
  let img := drawFilledCircleMut img (right - radius, top + radius) radius c
  let img := drawFilledCircleMut img (right - radius, bottom - radius) radius c
  let img := drawFilledRectMut img
    (Rect.atOf left (top + radius) rect.width
      (u32wrapSub rect.height ((2 * u32ofI32 radius) % 2 ^ 32))) c
  drawFilledRectMut img
    (Rect.atOf (left + radius) top
      (u32wrapSub rect.width ((2 * u32ofI32 radius) % 2 ^ 32)) rect.height) c

/-! ## Cubic Bézier (`draw_mut.rs`) -/

/-- `draw_cubic_bezier_curve_mut`.  The `f32::sqrt` used for the approximate
arc length (and hence the segment count) has no exact rational counterpart,
so it is abstracted as the parameter `sqrtApprox`; every theorem below holds
for an arbitrary `sqrtApprox`.  Each sampled curve point is rounded to the
nearest pixel and consecutive samples are joined with plain line segments. -/
def drawCubicBezierCurveMut {α : Type} (sqrtApprox : ℚ → ℚ) (img : Img α)
    (start e controlA controlB : ℚ × ℚ) (c : α) : Img α :=
  let curvePoint := fun (t : ℚ) =>
    let t2 := t * t
    let t3 := t2 * t
    let mt := 1 - t
    let mt2 := mt * mt
    let mt3 := mt2 * mt
    let x := start.1 * mt3 + 3 * controlA.1 * mt2 * t + 3 * controlB.1 * mt * t2 + e.1 * t3
    let y := start.2 * mt3 + 3 * controlA.2 * mt2 * t + 3 * controlB.2 * mt * t2 + e.2 * t3
    (((rustRound x : Int) : ℚ), ((rustRound y : Int) : ℚ))
  let dist := fun (a b : ℚ × ℚ) => sqrtApprox ((a.1 - b.1) ^ 2 + (a.2 - b.2) ^ 2)
  let curveLengthBound : ℚ := dist start controlA + dist controlA controlB + dist controlB e
  let numSegments : Int := f32toI32 (sqrtApprox (curveLengthBound ^ 2 + 800) / 8)
  let tInterval : ℚ := 1 / (numSegments : ℚ)
  ((List.range numSegments.toNat).foldl
    (fun (st : Img α × ℚ) (i : Nat) =>
      let t2 := ((i : ℚ) + 1) * tInterval
      (drawLineSegmentMut st.1 (curvePoint st.2) (curvePoint t2) c, t2))
    (img, 0)).1

/-! ## Auxiliary definitions for the verification -/

/-- Whether the `y ≤ scanline` indicator flips across an edge; the length of
`polygonContrib` is congruent to this flag modulo 2, which is what makes the
intersection count of a closed polygon even on every scanline. -/
def edgeFlips (y : Int) (e : (Int × Int) × (Int × Int)) : Bool :=
  decide (e.1.2 ≤ y) != decide (e.2.2 ≤ y)

/-- The post-normalization iterator state on integer endpoints `(a, u)`,
`(b, v)`: what `BresenhamLineIter::new` builds once the steep/left-right swaps
are done. -/
def bresStateOfInts (st : Bool) (a u b v : Int) : BresenhamLineIter :=
  { dx := (b : ℚ) - (a : ℚ)
    dy := |(v : ℚ) - (u : ℚ)|
    x := a
    y := u
    error := ((b : ℚ) - (a : ℚ)) / 2
    endX := b
    isSteep := st
    yStep := if (u : ℚ) < (v : ℚ) then 1 else -1 }

/-- A 10×0 all-`false` boolean image: a zero-height target buffer. -/
def cexImg : Img Bool := ⟨10, 0, fun _ _ => false⟩

/-! # Theorems -/

/-! ## C9 — the clamp utility saturates (and truncates on floats) -/

/-- C9 counterexample: the `f32 → u8` clamp instance truncates in-range
fractional inputs — `clamp(10.7) = 10`, although `10.7` lies within
`[0, 255]` and `10 ≠ 10.7`, so "returns x itself when min ≤ x ≤ max" fails
for the float source types (the ones the blending arithmetic actually uses). -/
theorem clamp_float_truncation_cex :
    clampF32U8 (107 / 10 : ℚ) = 10 ∧
    ((0 : ℚ) ≤ 107 / 10 ∧ (107 / 10 : ℚ) ≤ 255) ∧
    ((10 : Int) : ℚ) ≠ (107 / 10 : ℚ) := by
  refine ⟨by with_unfolding_all rfl, by norm_num, by norm_num⟩

/-- C9 (amended): every integer instance of `Clamp` saturates its argument
into the target type's representable range — the identity on in-range values,
the maximum above it, the minimum below it; the `f32`/`f64` instances
saturate at the range bounds in the same way but truncate the fractional part
of in-range values toward zero (`clamp(x) = min(max(trunc(x), 0), max_To)`),
so on a fractional in-range input they do not return the input itself.
Total functions, no panic, no wrap-around. -/
theorem clamp_saturates_or_truncates :
    (∀ x : Int, clampI32U8 x = min (max x 0) 255) ∧
    (∀ x : Int, clampI16U8 x = min (max x 0) 255) ∧
    (∀ x : Nat, clampU16U8 x = min x 255) ∧
    (∀ x : Nat, clampU32U8 x = min x 255) ∧
    (∀ x : Int, clampI32U16 x = min (max x 0) 65535) ∧
    (∀ x : Int, clampI32I16 x = min (max x (-32768)) 32767) ∧
    (∀ x : Int, clampIdentity x = x) ∧
    (∀ q : ℚ, clampF32U8 q = min (max (f32toI32 q) 0) 255) ∧
    (∀ q : ℚ, clampF32U16 q = min (max (f32toI32 q) 0) 65535) := by
  refine ⟨?_, ?_, ?_, ?_, ?_, ?_, ?_, ?_, ?_⟩
  · intro x
    simp only [clampI32U8]
    split_ifs <;> omega
  · intro x
    simp only [clampI16U8]
    split_ifs <;> omega
  · intro x
    simp only [clampU16U8]
    split_ifs <;> omega
  · intro x
    simp only [clampU32U8]
    split_ifs <;> omega
  · intro x
    simp only [clampI32U16]
    split_ifs <;> omega
  · intro x
    simp only [clampI32I16]
    split_ifs <;> omega
  · intro x
    rfl
  · intro q
    unfold clampF32U8 f32toI32
    split_ifs with h1 h2 h3 h3 h3
    · have ha : 0 ≤ ⌊q⌋ := Int.floor_nonneg.mpr h3
      have hb : ⌊q⌋ < 255 := Int.floor_lt.mpr (by exact_mod_cast h1)
      omega
    · exact absurd (le_of_lt h2) h3
    · have ha : 0 ≤ ⌊q⌋ := Int.floor_nonneg.mpr h3
      have hb : ⌊q⌋ ≤ 0 := by
        have := Int.floor_le_floor (α := ℚ) (not_lt.mp h2)
        simpa using this
      omega
    · have hc : ⌈q⌉ ≤ 0 := Int.ceil_le.mpr (by exact_mod_cast le_of_lt (not_le.mp h3))
      omega
    · have hd : (255 : Int) ≤ ⌊q⌋ := Int.le_floor.mpr (by exact_mod_cast not_lt.mp h1)
      omega
    · exfalso
      linarith [not_lt.mp h1, not_le.mp h3]
  · intro q
    unfold clampF32U16 f32toI32
    split_ifs with h1 h2 h3 h3 h3
    · have ha : 0 ≤ ⌊q⌋ := Int.floor_nonneg.mpr h3
      have hb : ⌊q⌋ < 65535 := Int.floor_lt.mpr (by exact_mod_cast h1)
      omega
    · exact absurd (le_of_lt h2) h3
    · have ha : 0 ≤ ⌊q⌋ := Int.floor_nonneg.mpr h3
      have hb : ⌊q⌋ ≤ 0 := by
        have := Int.floor_le_floor (α := ℚ) (not_lt.mp h2)
        simpa using this
      omega
    · have hc : ⌈q⌉ ≤ 0 := Int.ceil_le.mpr (by exact_mod_cast le_of_lt (not_le.mp h3))
      omega
    · have hd : (65535 : Int) ≤ ⌊q⌋ := Int.le_floor.mpr (by exact_mod_cast not_lt.mp h1)
      omega
    · exfalso
      linarith [not_lt.mp h1, not_le.mp h3]

/-! ## C2 / C10 — the chunk windower -/

/-- Helper: membership in `(0..n).step_by(d)` for `d ≥ 1`. -/
theorem mem_chunkStarts {len step overlap : Nat} (hd : overlap < step) (s : Nat) :
    s ∈ chunkStarts len step overlap ↔
      ∃ k, s = k * (step - overlap) ∧ s < len - overlap := by
  have hd1 : 0 < step - overlap := by omega
  simp only [chunkStarts, List.mem_map, List.mem_range]
  constructor
  · rintro ⟨k, hk, rfl⟩
    refine ⟨k, rfl, ?_⟩
    have h2 : k + 1 ≤ (len - overlap + (step - overlap) - 1) / (step - overlap) := hk
    rw [Nat.le_div_iff_mul_le hd1] at h2
    rw [Nat.succ_mul] at h2
    omega
  · rintro ⟨k, rfl, hlt⟩
    refine ⟨k, ?_, rfl⟩
    have h2 : (k + 1) * (step - overlap) ≤ len - overlap + (step - overlap) - 1 := by
      have : k * (step - overlap) + 1 ≤ len - overlap := hlt
      calc (k + 1) * (step - overlap) = k * (step - overlap) + (step - overlap) := by ring
        _ ≤ len - overlap + (step - overlap) - 1 := by omega
    have := (Nat.le_div_iff_mul_le hd1).mpr h2
    omega

/-- C2: for every slide list with `len ≥ overlap` and `step > overlap`, the
chunk windower's starting indices are exactly the multiples of
`step - overlap` strictly below `len - overlap`, each window spans
`[start, min (start + step) len)`, and the build cuts exactly the slide
sublist of that window; with `len = 23`, `step = 20`, `overlap = 4` the build
yields exactly the two windows `[0, 20)` and `[16, 23)`. -/
theorem chunk_windower_spec :
    (∀ len step overlap : Nat, overlap ≤ len → overlap < step →
      (∀ s, s ∈ chunkStarts len step overlap ↔
        ∃ k, s = k * (step - overlap) ∧ s < len - overlap) ∧
      (∀ w, w ∈ chunkWindows len step overlap ↔
        (∃ k, w.1 = k * (step - overlap) ∧ w.1 < len - overlap) ∧
          w.2 = min (w.1 + step) len) ∧
      (∀ slides : List Nat, slides.length = len → slides ≠ [] →
        videoBuild slides step overlap =
          .ok ((chunkStarts len step overlap).map fun i =>
            (slides.drop i).take (min (i + step) len - i)))) ∧
    videoBuild (List.range 23) 20 4 =
      .ok [List.range 20, [16, 17, 18, 19, 20, 21, 22]] := by
  constructor
  · intro len step overlap _hlen hstep
    refine ⟨mem_chunkStarts hstep, ?_, ?_⟩
    · intro w
      simp only [chunkWindows, List.mem_map]
      constructor
      · rintro ⟨i, hi, rfl⟩
        exact ⟨(mem_chunkStarts hstep i).mp hi, rfl⟩
      · rintro ⟨hk, hw⟩
        refine ⟨w.1, (mem_chunkStarts hstep w.1).mpr hk, ?_⟩
        rw [← hw]
    · intro slides hlen hne
      simp only [videoBuild, List.isEmpty_eq_true, hne, if_false, hlen]
      rw [if_neg (by omega)]
  · rfl

/-- Witness for C2 at `len = 23`, `step = 20`, `overlap = 4`: the start `16`
is a multiple of `step - overlap` below `len - overlap`. -/
theorem chunk_windower_spec_witness :
    16 ∈ chunkStarts 23 20 4 ↔ ∃ k, 16 = k * (20 - 4) ∧ 16 < 23 - 4 :=
  ((chunk_windower_spec.1 23 20 4 (by decide) (by decide)).1) 16

/-- C10: when the slide list length equals `overlap` exactly (and the list is
nonempty, as the builder requires), `VideoBuilder::build` succeeds and returns
an empty chunk list: the starting indices range over the empty interval
`[0, len - overlap)`. -/
theorem videoBuild_len_eq_overlap_empty {σ : Type} (slides : List σ)
    (step overlap : Nat) (hne : slides ≠ []) (hlen : slides.length = overlap) :
    videoBuild slides step overlap = .ok [] := by
  have hempty : slides.isEmpty = false := by
    cases slides with
    | nil => exact absurd rfl hne
    | cons a l => rfl
  have hz : (slides.length - overlap + (step - overlap) - 1) / (step - overlap) = 0 := by
    rcases Nat.eq_zero_or_pos (step - overlap) with h | h
    · simp [h, hlen]
    · exact Nat.div_eq_of_lt (by omega)
  simp only [videoBuild, hempty, Bool.false_eq_true, if_false, chunkStarts, hz,
    List.range_zero, List.map_nil, if_neg (by omega : ¬ slides.length < overlap)]

/-- Witness for C10: two slides with `overlap = 2` build to an empty chunk
list. -/
theorem videoBuild_len_eq_overlap_empty_witness :
    videoBuild [0, 1] 7 2 = .ok [] :=
  videoBuild_len_eq_overlap_empty [0, 1] 7 2 (by decide) rfl

/-! ## C6 — configuration validation -/

/-- C6: `VideoConfigBuilder::build` fails with the invalid-width error when
`screen.0 % width_slides ≠ 0`, fails with the invalid-step error when
`step ≤ overlap = screen.0 / width_slides`, and on success the built
configuration's `overlap` equals `screen.0 / width_slides`.  The build is a
pure function evaluated before any slide is rendered (`Video::run` consumes
an already-built `VideoConfig`), so both checks are fail-fast.  The
hypothesis `0 < widthSlides` excludes the zero divisor, on which the Rust
`%` itself panics. -/
theorem videoConfigBuild_spec (screenW widthSlides step : Nat)
    (workDir font : Option Bool) (_hw : 0 < widthSlides) :
    (screenW % widthSlides ≠ 0 →
      videoConfigBuild screenW widthSlides step workDir font = .error .invalidWidth) ∧
    (screenW % widthSlides = 0 → step ≤ screenW / widthSlides →
      videoConfigBuild screenW widthSlides step workDir font = .error .invalidStep) ∧
    (∀ cfg, videoConfigBuild screenW widthSlides step workDir font = .ok cfg →
      cfg.overlap = screenW / widthSlides) := by
  refine ⟨fun h => by simp [videoConfigBuild, h], fun h hs => by simp [videoConfigBuild, h, hs], ?_⟩
  intro cfg hok
  simp only [videoConfigBuild] at hok
  split_ifs at hok
  cases workDir with
  | none =>
    cases font with
    | none => simp at hok
    | some fb =>
      cases fb with
      | false => simp at hok
      | true => cases hok; rfl
  | some wb =>
    cases wb with
    | false => simp at hok
    | true =>
      cases font with
      | none => simp at hok
      | some fb =>
        cases fb with
        | false => simp at hok
        | true => cases hok; rfl

/-- Witness for C6 at `screen = 1920`, `width_slides = 480`, `step = 4`:
the width check passes (`1920 % 480 = 0`) and `step ≤ overlap = 4` raises the
invalid-step error. -/
theorem videoConfigBuild_spec_witness :
    videoConfigBuild 1920 480 4 (some true) (some true) = .error .invalidStep :=
  (videoConfigBuild_spec 1920 480 4 (some true) (some true) (by decide)).2.1
    (by decide) (by decide)

/-! ## C7 — slide generation data consumption -/

/-- Helper: `Except.map` preserves and reflects success. -/
theorem except_map_ok_iff {ε β γ : Type} (f : β → γ) (e : Except ε β) :
    (∃ v, e.map f = .ok v) ↔ ∃ v, e = .ok v := by
  cases e <;> simp [Except.map]

/-- C7: `Slide::generation` consumes the data supply sequentially in
operation-declaration order — an `Image` or `Text` operation consumes one
string (becoming that element's path resp. content), a `Color` operation
consumes none — and it succeeds exactly when the supply covers all non-color
operations; with two `Image` operations and one data string it fails with the
data-exhaustion error. -/
theorem generation_spec :
    (∀ (ops : List Operation) (datas : List String),
      (∃ es, generation ops datas = .ok es) ↔ nonColorCount ops ≤ datas.length) ∧
    (∀ pos z ops d ds, generation (.image pos z :: ops) (d :: ds) =
      (generation ops ds).map (Element.image d pos :: ·)) ∧
    (∀ scale col pos z ops d ds, generation (.text scale col pos z :: ops) (d :: ds) =
      (generation ops ds).map (Element.text d scale col pos :: ·)) ∧
    (∀ col pos z ops datas, generation (.color col pos z :: ops) datas =
      (generation ops datas).map (Element.color col pos :: ·)) ∧
    generation [.image ⟨0, 0, 0⟩ 0, .image ⟨0, 0, 0⟩ 0] ["x"] =
      .error .insufficientImageData := by
  refine ⟨?_, fun _ _ _ _ _ => rfl, fun _ _ _ _ _ _ _ => rfl, fun _ _ _ _ _ => rfl, rfl⟩
  intro ops
  induction ops with
  | nil => intro datas; simp [generation, nonColorCount]
  | cons op rest ih =>
    intro datas
    cases op with
    | image pos z =>
      cases datas with
      | nil => simp [generation, nonColorCount]
      | cons d ds => rw [show generation (.image pos z :: rest) (d :: ds) =
          (generation rest ds).map (Element.image d pos :: ·) from rfl]
                     rw [except_map_ok_iff]
                     simp only [nonColorCount, List.length_cons]
                     rw [ih ds]
                     omega
    | text scale col pos z =>
      cases datas with
      | nil => simp [generation, nonColorCount]
      | cons d ds => rw [show generation (.text scale col pos z :: rest) (d :: ds) =
          (generation rest ds).map (Element.text d scale col pos :: ·) from rfl]
                     rw [except_map_ok_iff]
                     simp only [nonColorCount, List.length_cons]
                     rw [ih ds]
                     omega
    | color col pos z =>
      rw [show generation (.color col pos z :: rest) datas =
          (generation rest datas).map (Element.color col pos :: ·) from rfl]
      rw [except_map_ok_iff]
      simp only [nonColorCount]
      exact ih datas

/-! ## C5 — equal-radii ellipse delegates to circle -/

/-- C5: with `width_radius = height_radius = r` the filled-ellipse operation
produces exactly the image of the filled-circle operation, and likewise the
hollow-ellipse operation equals the hollow-circle operation: both delegate
unconditionally on the equal-radii test. -/
theorem ellipse_circle_delegation :
    ∀ (α : Type) (img : Img α) (center : Int × Int) (r : Int) (c : α),
      drawFilledEllipseMut img center r r c = drawFilledCircleMut img center r c ∧
      drawHollowEllipseMut img center r r c = drawHollowCircleMut img center r c := by
  intro α img center r c
  exact ⟨by simp [drawFilledEllipseMut], by simp [drawHollowEllipseMut]⟩

/-! ## C8 — color parsing -/

/-- C8 counterexample: `Color::try_from("#+A+B+C")` succeeds (yielding
channels `(10, 11, 12)`), because `u8::from_str_radix` accepts a leading `'+'`
sign — yet `"#+A+B+C"` is neither a `'#'`-prefixed 6-hex-digit string nor a
name in the static table, refuting "construction succeeds only for" those
forms. -/
theorem colorTryFrom_plus_sign_cex :
    colorTryFrom ['#', '+', 'A', '+', 'B', '+', 'C'] = .ok ⟨10, 11, 12⟩ ∧
    specIsHashHexColor ['#', '+', 'A', '+', 'B', '+', 'C'] = false ∧
    specIsNamedColor ['#', '+', 'A', '+', 'B', '+', 'C'] = false := by
  refine ⟨rfl, rfl, ?_⟩
  decide

/-- C8 (amended): `Color::try_from` succeeds exactly for `'#'`-prefixed
strings of 6 further characters whose three 2-character groups each parse
under `u8::from_str_radix(_, 16)` — which also accepts a leading `'+'` sign —
or for non-`'#'`-headed strings present in the static name table; in
particular `"#FF5733"` yields channels `(255, 87, 51)` and `"#ZZZZZZ"` fails
with the invalid-color error. -/
theorem colorTryFrom_spec :
    (∀ s : List Char,
      (∃ c, colorTryFrom s = .ok c) ↔
        ((∃ rest, s = '#' :: rest ∧ rest.length = 6 ∧
            (u8FromStrRadix16 (rest.take 2)).isSome = true ∧
            (u8FromStrRadix16 ((rest.drop 2).take 2)).isSome = true ∧
            (u8FromStrRadix16 ((rest.drop 4).take 2)).isSome = true) ∨
          (s.head? ≠ some '#' ∧ (colorLookup s).isSome = true))) ∧
    colorTryFrom ['#', 'F', 'F', '5', '7', '3', '3'] = .ok ⟨255, 87, 51⟩ ∧
    colorTryFrom ['#', 'Z', 'Z', 'Z', 'Z', 'Z', 'Z'] = .error .hashNotColor := by
  refine ⟨?_, rfl, rfl⟩
  intro s
  cases s with
  | nil =>
    simp only [colorTryFrom]
    cases h : colorLookup [] with
    | none => simp [h]
    | some col => simp [h]
  | cons a as =>
    by_cases ha : a = '#'
    · subst ha
      simp only [colorTryFrom, if_pos rfl]
      by_cases hl : as.length = 6
      · rw [if_neg (not_not_intro hl)]
        cases h1 : u8FromStrRadix16 (as.take 2) with
        | none => simp [h1, hl]
        | some r =>
          cases h2 : u8FromStrRadix16 ((as.drop 2).take 2) with
          | none => simp [h1, h2, hl]
          | some g =>
            cases h3 : u8FromStrRadix16 ((as.drop 4).take 2) with
            | none => simp [h1, h2, h3, hl]
            | some b => simp [h1, h2, h3, hl]
      · rw [if_pos hl]
        simp [hl]
    · simp only [colorTryFrom, if_neg ha]
      cases h : colorLookup (a :: as) with
      | none => simp [h, ha]
      | some col => simp [h, ha]

/-! ## C3 — degenerate polygons -/

/-- C3 counterexample: with the empty point list — a list with "fewer than 2
points" — the filled-polygon operation completes normally (no error, no
panic) and touches nothing, instead of failing with a degenerate-polygon
error. -/
theorem polygon_empty_silent_cex :
    drawPolygonMut (⟨100, 100, fun _ _ => false⟩ : Img Bool) [] true =
      (⟨100, 100, fun _ _ => false⟩, true) := rfl

/-- C3 (amended): the filled-polygon operation treats the empty list as a
silent no-op (no error); a nonempty list whose first point equals its last —
including every single-point list — makes it panic, rather than return a
degenerate-polygon error, before any pixel is modified.  The hollow-polygon
operation likewise silently ignores the empty list and panics, image
untouched, on one-point lists and on first = last. -/
theorem polygon_degenerate_spec :
    ∀ (α : Type) (img : Img α) (c : α)
      (plotter : Img α → ℚ × ℚ → ℚ × ℚ → α → Img α),
      (drawPolygonWithMut plotter img [] c = (img, true)) ∧
      (∀ (p : Int × Int) (rest : List (Int × Int)),
        (p :: rest).getLast (List.cons_ne_nil p rest) = p →
        drawPolygonWithMut plotter img (p :: rest) c = (img, false)) ∧
      (drawHallowPolygonMut img [] c = (img, true)) ∧
      (∀ p : ℚ × ℚ, drawHallowPolygonMut img [p] c = (img, false)) ∧
      (∀ (p q : ℚ × ℚ) (rest : List (ℚ × ℚ)),
        (p :: q :: rest).getLast (List.cons_ne_nil p (q :: rest)) = p →
        drawHallowPolygonMut img (p :: q :: rest) c = (img, false)) := by
  intro α img c plotter
  refine ⟨rfl, ?_, rfl, fun p => rfl, ?_⟩
  · intro p rest hlast
    simp only [drawPolygonWithMut, hlast, if_pos]
  · intro p q rest hlast
    simp only [drawHallowPolygonMut, hlast, if_pos]

/-- Witness for C3: the one-point polygon `[(1, 1)]` (first = last) panics
with the 4×4 image left untouched. -/
theorem polygon_degenerate_spec_witness :
    drawPolygonMut (⟨4, 4, fun _ _ => (0 : Nat)⟩ : Img Nat) [(1, 1)] 7 =
      (⟨4, 4, fun _ _ => (0 : Nat)⟩, false) :=
  (polygon_degenerate_spec Nat ⟨4, 4, fun _ _ => (0 : Nat)⟩ 7
    (fun im s e col => drawLineSegmentMut im s e col)).2.1 (1, 1) [] rfl

/-! ## C1 machinery — out-of-bounds pixels are never written -/

theorem sameOutside_refl {α : Type} (img : Img α) : SameOutside img img :=
  ⟨rfl, rfl, fun _ _ _ => rfl⟩

theorem sameOutside_trans {α : Type} {a b c : Img α}
    (h1 : SameOutside a b) (h2 : SameOutside b c) : SameOutside a c := by
  obtain ⟨hw1, hh1, hp1⟩ := h1
  obtain ⟨hw2, hh2, hp2⟩ := h2
  refine ⟨hw2.trans hw1, hh2.trans hh1, fun x y hxy => ?_⟩
  have hb := hxy
  rw [← hw1, ← hh1] at hb
  exact (hp2 x y hb).trans (hp1 x y hxy)

theorem sameOutside_putPixel {α : Type} {img : Img α} {x y : Int} {c : α}
    (hx : 0 ≤ x ∧ x < (img.width : Int) ∧ 0 ≤ y ∧ y < (img.height : Int)) :
    SameOutside img (img.putPixel x y c) := by
  refine ⟨rfl, rfl, fun a b hab => ?_⟩
  simp only [Img.putPixel]
  rw [if_neg]
  rintro ⟨rfl, rfl⟩
  exact hab hx

theorem sameOutside_drawIfInBounds {α : Type} (img : Img α) (x y : Int) (c : α) :
    SameOutside img (drawIfInBounds img x y c) := by
  unfold drawIfInBounds
  split_ifs with h
  · exact sameOutside_putPixel h
  · exact sameOutside_refl _

theorem sameOutside_foldl {α : Type} {β : Type _} (f : Img α → β → Img α)
    (hf : ∀ im b, SameOutside im (f im b)) (l : List β) (img : Img α) :
    SameOutside img (l.foldl f img) := by
  induction l generalizing img with
  | nil => exact sameOutside_refl _
  | cons b t ih => exact sameOutside_trans (hf img b) (ih (f img b))

/-- Fold preservation where the step only behaves well on list members, with
the accumulator's dimensions pinned to the starting dimensions. -/
theorem sameOutside_foldl_inv {α : Type} {β : Type _} (f : Img α → β → Img α)
    (l : List β) (W H : Nat)
    (hf : ∀ im b, im.width = W → im.height = H → b ∈ l → SameOutside im (f im b)) :
    ∀ im, im.width = W → im.height = H → SameOutside im (l.foldl f im) := by
  induction l with
  | nil => intro im _ _; exact sameOutside_refl _
  | cons b t ih =>
    intro im hw hh
    have h1 := hf im b hw hh (List.mem_cons_self b t)
    exact sameOutside_trans h1
      (ih (fun im' b' hw' hh' hb' => hf im' b' hw' hh' (List.mem_cons_of_mem b hb'))
        (f im b) (h1.1.trans hw) (h1.2.1.trans hh))

theorem sameOutside_drawLineSegmentMut {α : Type} (img : Img α) (s e : ℚ × ℚ)
    (c : α) : SameOutside img (drawLineSegmentMut img s e c) := by
  unfold drawLineSegmentMut
  apply sameOutside_foldl
  intro im p
  split_ifs with h
  · exact sameOutside_putPixel h
  · exact sameOutside_refl _

theorem sameOutside_plotterPlot {α : Type} (tr : Int → Int → Int × Int)
    (blend : α → α → ℚ → α) (img : Img α) (x y : Int) (c : α) (w : ℚ) :
    SameOutside img (plotterPlot tr blend img x y c w) := by
  simp only [plotterPlot]
  split_ifs with h
  · exact sameOutside_putPixel h
  · exact sameOutside_refl _

theorem sameOutside_plotWuLine {α : Type} (tr : Int → Int → Int × Int)
    (blend : α → α → ℚ → α) (img : Img α) (s e : Int × Int) (c : α) :
    SameOutside img (plotWuLine tr blend img s e c) := by
  unfold plotWuLine
  simp only []
  generalize (s.2 : ℚ) = fy0
  generalize intRange s.1 e.1 = xs
  induction xs generalizing img fy0 with
  | nil => exact sameOutside_refl _
  | cons x t ih =>
    simp only [List.foldl_cons]
    exact sameOutside_trans
      (sameOutside_trans (sameOutside_plotterPlot _ _ _ _ _ _ _)
        (sameOutside_plotterPlot _ _ _ _ _ _ _))
      (ih _ _)

theorem sameOutside_drawAntialiasedLineSegmentMut {α : Type} (img : Img α)
    (s e : Int × Int) (c : α) (blend : α → α → ℚ → α) :
    SameOutside img (drawAntialiasedLineSegmentMut img s e c blend) := by
  obtain ⟨x0, y0⟩ := s
  obtain ⟨x1, y1⟩ := e
  simp only [drawAntialiasedLineSegmentMut]
  split_ifs <;> apply sameOutside_plotWuLine

/-- Prepend one bounds-guarded pixel write to a preservation chain. -/
theorem soChain_ifInBounds {α : Type} {img t : Img α} {x y : Int} {c : α}
    (h : SameOutside (drawIfInBounds img x y c) t) : SameOutside img t :=
  sameOutside_trans (sameOutside_drawIfInBounds img x y c) h

/-- Prepend one line segment to a preservation chain. -/
theorem soChain_line {α : Type} {img t : Img α} {s e : ℚ × ℚ} {c : α}
    (h : SameOutside (drawLineSegmentMut img s e c) t) : SameOutside img t :=
  sameOutside_trans (sameOutside_drawLineSegmentMut img s e c) h

theorem sameOutside_hollowCircleLoop {α : Type} (x0 y0 : Int) (c : α)
    (img : Img α) (x y p : Int) :
    SameOutside img (hollowCircleLoop x0 y0 c img x y p) := by
  rw [hollowCircleLoop]
  dsimp only
  split_ifs with hxy hp
  · iterate 8 apply soChain_ifInBounds
    exact sameOutside_hollowCircleLoop x0 y0 c _ (x + 1) y (p + 2 * (x + 1) + 1)
  · iterate 8 apply soChain_ifInBounds
    exact sameOutside_hollowCircleLoop x0 y0 c _ (x + 1) (y - 1)
      (p + 2 * ((x + 1) - (y - 1)) + 1)
  · exact sameOutside_refl _
termination_by (y + 1 - x).toNat
decreasing_by all_goals omega

theorem sameOutside_filledCircleLoop {α : Type} (x0 y0 : Int) (c : α)
    (img : Img α) (x y p : Int) :
    SameOutside img (filledCircleLoop x0 y0 c img x y p) := by
  rw [filledCircleLoop]
  dsimp only
  split_ifs with hxy hp
  · iterate 4 apply soChain_line
    exact sameOutside_filledCircleLoop x0 y0 c _ (x + 1) y (p + 2 * (x + 1) + 1)
  · iterate 4 apply soChain_line
    exact sameOutside_filledCircleLoop x0 y0 c _ (x + 1) (y - 1)
      (p + 2 * ((x + 1) - (y - 1)) + 1)
  · exact sameOutside_refl _
termination_by (y + 1 - x).toNat
decreasing_by all_goals omega

theorem sameOutside_drawHollowCircleMut {α : Type} (img : Img α)
    (center : Int × Int) (r : Int) (c : α) :
    SameOutside img (drawHollowCircleMut img center r c) :=
  sameOutside_hollowCircleLoop _ _ _ _ _ _ _

theorem sameOutside_drawFilledCircleMut {α : Type} (img : Img α)
    (center : Int × Int) (r : Int) (c : α) :
    SameOutside img (drawFilledCircleMut img center r c) :=
  sameOutside_filledCircleLoop _ _ _ _ _ _ _

theorem sameOutside_ellipseLoop1 {α : Type}
    (render : Img α → Int → Int → Int → Int → Img α)
    (hrender : ∀ im a b u v, SameOutside im (render im a b u v))
    (x0 y0 : Int) (w2 h2 : ℚ) :
    ∀ (fuel : Nat) (st : Img α × Int × Int × ℚ × ℚ × ℚ),
      SameOutside st.1 (ellipseLoop1 render x0 y0 w2 h2 fuel st).1 := by
  intro fuel
  induction fuel with
  | zero => intro st; exact sameOutside_refl _
  | succ n ih =>
    intro st
    obtain ⟨img, x, y, px, py, p⟩ := st
    rw [ellipseLoop1]
    dsimp only
    split_ifs with hc hp
    · exact sameOutside_trans (hrender img x0 y0 (x + 1) y) (ih _)
    · exact sameOutside_trans (hrender img x0 y0 (x + 1) (y - 1)) (ih _)
    · exact sameOutside_refl _

theorem sameOutside_ellipseLoop2 {α : Type}
    (render : Img α → Int → Int → Int → Int → Img α)
    (hrender : ∀ im a b u v, SameOutside im (render im a b u v))
    (x0 y0 : Int) (w2 h2 : ℚ) (img : Img α) (x y : Int) (px py p : ℚ) :
    SameOutside img (ellipseLoop2 render x0 y0 w2 h2 img x y px py p) := by
  rw [ellipseLoop2]
  dsimp only
  split_ifs with hy hp
  · exact sameOutside_trans (hrender img x0 y0 x (y - 1))
      (sameOutside_ellipseLoop2 render hrender x0 y0 w2 h2 _ x (y - 1) px
        (py + -(2 * w2)) (p + w2 - (py + -(2 * w2))))
  · exact sameOutside_trans (hrender img x0 y0 (x + 1) (y - 1))
      (sameOutside_ellipseLoop2 render hrender x0 y0 w2 h2 _ (x + 1) (y - 1)
        (px + 2 * h2) (py + -(2 * w2)) (p + w2 - (py + -(2 * w2)) + (px + 2 * h2)))
  · exact sameOutside_refl _
termination_by y.toNat
decreasing_by all_goals omega

theorem sameOutside_drawEllipseGeneric {α : Type}
    (render : Img α → Int → Int → Int → Int → Img α)
    (hrender : ∀ im a b u v, SameOutside im (render im a b u v))
    (img : Img α) (center : Int × Int) (wr hr : Int) :
    SameOutside img (drawEllipseGeneric render img center wr hr) := by
  unfold drawEllipseGeneric
  dsimp only
  exact sameOutside_trans (hrender img center.1 center.2 0 hr)
    (sameOutside_trans (sameOutside_ellipseLoop1 render hrender center.1 center.2 _ _ _ _)
      (sameOutside_ellipseLoop2 render hrender center.1 center.2 _ _ _ _ _ _ _ _))

theorem sameOutside_drawHollowEllipseMut {α : Type} (img : Img α)
    (center : Int × Int) (wr hr : Int) (c : α) :
    SameOutside img (drawHollowEllipseMut img center wr hr c) := by
  unfold drawHollowEllipseMut
  split_ifs with h
  · exact sameOutside_drawHollowCircleMut _ _ _ _
  · refine sameOutside_drawEllipseGeneric _ ?_ _ _ _ _
    intro im a b u v
    iterate 3 apply soChain_ifInBounds
    exact sameOutside_drawIfInBounds _ _ _ _

theorem sameOutside_drawFilledEllipseMut {α : Type} (img : Img α)
    (center : Int × Int) (wr hr : Int) (c : α) :
    SameOutside img (drawFilledEllipseMut img center wr hr c) := by
  unfold drawFilledEllipseMut
  split_ifs with h
  · exact sameOutside_drawFilledCircleMut _ _ _ _
  · refine sameOutside_drawEllipseGeneric _ ?_ _ _ _ _
    intro im a b u v
    apply soChain_line
    exact sameOutside_drawLineSegmentMut _ _ _ _

theorem sameOutside_drawHollowRectMut {α : Type} (img : Img α) (rect : Rect)
    (c : α) : SameOutside img (drawHollowRectMut img rect c) := by
  unfold drawHollowRectMut
  dsimp only
  iterate 3 apply soChain_line
  exact sameOutside_drawLineSegmentMut _ _ _ _

/-- The intersection of the image-bounds rect with any rect stays inside the
image bounds, so `draw_filled_rect_mut` writes only in-bounds pixels. -/
theorem sameOutside_drawFilledRectMut {α : Type} (img : Img α) (rect : Rect)
    (c : α) : SameOutside img (drawFilledRectMut img rect c) := by
  unfold drawFilledRectMut
  cases hI : (Rect.atOf 0 0 img.width img.height).intersect rect with
  | none => exact sameOutside_refl _
  | some inter =>
    simp only [Rect.intersect, Rect.atOf, Rect.right, Rect.bottom] at hI
    split_ifs at hI with hdisj
    push_neg at hdisj
    obtain ⟨hr, hb⟩ := hdisj
    cases hI
    refine sameOutside_foldl_inv _ _ img.width img.height ?_ img rfl rfl
    intro im dy hw hh hdy
    refine sameOutside_foldl_inv _ _ img.width img.height ?_ im hw hh
    intro im2 dx hw2 hh2 hdx
    have hdxm := List.mem_range.mp hdx
    have hdym := List.mem_range.mp hdy
    apply sameOutside_putPixel
    rw [hw2, hh2]
    dsimp only at hdxm hdym ⊢
    refine ⟨?_, ?_, ?_, ?_⟩ <;> omega

theorem soChain_filledCircle {α : Type} {img t : Img α} {center : Int × Int}
    {r : Int} {c : α}
    (h : SameOutside (drawFilledCircleMut img center r c) t) : SameOutside img t :=
  sameOutside_trans (sameOutside_drawFilledCircleMut img center r c) h

theorem soChain_filledRect {α : Type} {img t : Img α} {rect : Rect} {c : α}
    (h : SameOutside (drawFilledRectMut img rect c) t) : SameOutside img t :=
  sameOutside_trans (sameOutside_drawFilledRectMut img rect c) h

theorem sameOutside_drawFilledRoundedRectMut {α : Type} (img : Img α)
    (rect : Rect) (radius : Int) (c : α) :
    SameOutside img (drawFilledRoundedRectMut img rect radius c) := by
  unfold drawFilledRoundedRectMut
  dsimp only
  iterate 4 apply soChain_filledCircle
  apply soChain_filledRect
  exact sameOutside_drawFilledRectMut _ _ _

theorem sameOutside_drawCubicBezierCurveMut {α : Type} (sqrtf : ℚ → ℚ)
    (img : Img α) (s e ca cb : ℚ × ℚ) (c : α) :
    SameOutside img (drawCubicBezierCurveMut sqrtf img s e ca cb c) := by
  unfold drawCubicBezierCurveMut
  dsimp only
  generalize (0 : ℚ) = t0
  generalize List.range _ = l
  induction l generalizing img t0 with
  | nil => exact sameOutside_refl _
  | cons i t ih =>
    simp only [List.foldl_cons]
    exact sameOutside_trans (sameOutside_drawLineSegmentMut _ _ _ _) (ih _ _)

theorem mem_intRange {a b x : Int} : x ∈ intRange a b ↔ a ≤ x ∧ x ≤ b := by
  simp only [intRange, List.mem_map, List.mem_range]
  constructor
  · rintro ⟨k, hk, rfl⟩
    omega
  · rintro ⟨h1, h2⟩
    exact ⟨(x - a).toNat, by omega, by omega⟩

theorem length_insertSorted (x : Int) (l : List Int) :
    (insertSorted x l).length = l.length + 1 := by
  induction l with
  | nil => rfl
  | cons y ys ih =>
    unfold insertSorted
    split_ifs with h
    · rfl
    · simp [ih]

theorem length_sortAsc (l : List Int) : (sortAsc l).length = l.length := by
  induction l with
  | nil => rfl
  | cons x xs ih =>
    simp only [sortAsc, List.foldr_cons] at ih ⊢
    rw [length_insertSorted, ih, List.length_cons]

/-- The parity of an edge's intersection contribution equals the flip of the
`p.y ≤ y` indicator across the edge: a horizontal edge contributes 2, an
endpoint touch contributes 1 exactly when the other endpoint is strictly
below, and a strict crossing contributes 1. -/
theorem polygonContrib_length_parity (y : Int) (e : (Int × Int) × (Int × Int)) :
    (polygonContrib y e).length % 2 = if edgeFlips y e then 1 else 0 := by
  obtain ⟨⟨x0, y0⟩, x1, y1⟩ := e
  rcases le_or_lt y0 y with h0 | h0 <;> rcases le_or_lt y1 y with h1 | h1 <;>
    simp only [polygonContrib, edgeFlips] <;>
    split_ifs <;>
    simp_all [List.length_append] <;>
    omega

/-- Along a path `a :: l`, the number of flips of a boolean attribute between
consecutive points has the parity of "endpoint attributes differ". -/
theorem path_changes_parity {β : Type} (f : β → Bool) (a : β) (l : List β) :
    (((a :: l).zip l).countP fun e => f e.1 != f e.2) % 2 =
      if f a = f (l.getLastD a) then 0 else 1 := by
  induction l generalizing a with
  | nil => simp
  | cons b t ih =>
    have hz : (a :: b :: t).zip (b :: t) = (a, b) :: ((b :: t).zip t) := rfl
    rw [hz, List.countP_cons, List.getLastD_cons]
    have h2 := ih b
    cases hfa : f a <;> cases hfb : f b <;> cases hfl : f (t.getLastD b) <;>
      simp only [hfa, hfb, hfl] at h2 ⊢ <;> simp at h2 ⊢ <;> omega

/-- Around the closed cycle `(p :: rest) ++ [p]`, the flip count is even. -/
theorem cycle_changes_even {β : Type} (f : β → Bool) (p : β) (rest : List β) :
    ((((p :: rest) ++ [p]).zip (((p :: rest) ++ [p]).tail)).countP
      fun e => f e.1 != f e.2) % 2 = 0 := by
  rw [show ((p :: rest) ++ [p]).tail = rest ++ [p] from rfl]
  rw [show (p :: rest) ++ [p] = p :: (rest ++ [p]) from rfl]
  rw [path_changes_parity f p (rest ++ [p]), List.getLastD_concat]
  simp

/-- The total intersection count on a scanline has the parity of the total
flip count over the edges. -/
theorem flatMap_contrib_parity (y : Int) (edges : List ((Int × Int) × (Int × Int))) :
    (edges.flatMap (polygonContrib y)).length % 2 =
      (edges.countP (edgeFlips y)) % 2 := by
  induction edges with
  | nil => rfl
  | cons e t ih =>
    rw [List.flatMap_cons, List.length_append, List.countP_cons]
    have := polygonContrib_length_parity y e
    split_ifs at this ⊢ <;> simp_all <;> omega

/-- The sorted intersection list of a closed polygon has even length on every
scanline, so `chunks(2)` never leaves an unpaired trailing element. -/
theorem scanline_intersections_even (y : Int) (p : Int × Int)
    (rest : List (Int × Int)) :
    (sortAsc ((((p :: rest) ++ [p]).zip (((p :: rest) ++ [p]).tail)).flatMap
      (polygonContrib y))).length % 2 = 0 := by
  rw [length_sortAsc, flatMap_contrib_parity]
  exact cycle_changes_even (fun q : Int × Int => decide (q.2 ≤ y)) p rest

/-- `fillPairs` never hits the unpaired-element panic on an even-length list. -/
theorem fillPairs_even_ok {α : Type} (w : Nat) (y : Int) (c : α) :
    ∀ (l : List Int) (img : Img α), l.length % 2 = 0 →
      (fillPairs w y c img l).2 = true
  | [], img, _ => rfl
  | [a], _, h => by simp at h
  | a :: b :: rest, img, h => by
    rw [fillPairs]
    exact fillPairs_even_ok w y c rest _ (by simp at h; omega)

/-- Every pixel `fillPairs` writes lies in `[0, w) × {y}`: the span ends are
clipped into `[0, w - 1]` before the fill loop runs. -/
theorem fillPairs_sameOutside {α : Type} (w : Nat) (y : Int) (c : α) :
    ∀ (l : List Int) (img : Img α), w = img.width →
      0 ≤ y → y < (img.height : Int) →
      SameOutside img (fillPairs w y c img l).1
  | [], img, _, _, _ => sameOutside_refl _
  | [a], img, _, _, _ => sameOutside_refl _
  | a :: b :: rest, img, hw, hy0, hy1 => by
    rw [fillPairs]
    split_ifs with hcond
    · have hmid : ∀ im : Img α, im.width = img.width → im.height = img.height →
          SameOutside im ((intRange (max 0 (min a (w : Int)))
            (max 0 (min b ((w : Int) - 1)))).foldl
              (fun im' x => im'.putPixel x y c) im) := by
        intro im hwid hhei
        refine sameOutside_foldl_inv _ _ img.width img.height ?_ im hwid hhei
        intro im2 x hw2 hh2 hx
        have hxm := mem_intRange.mp hx
        apply sameOutside_putPixel
        rw [hw2, hh2]
        refine ⟨?_, ?_, ?_, ?_⟩ <;> omega
      have h1 := hmid img rfl rfl
      refine sameOutside_trans h1 ?_
      have h2 := fillPairs_sameOutside w y c rest _
        (hw.trans h1.1.symm) hy0 (by rw [h1.2.1]; exact hy1)
      exact h2
    · exact fillPairs_sameOutside w y c rest img hw hy0 hy1

/-- The scanline loop of the polygon fill: stays inside the buffer and never
panics, provided every scanline index is within `[0, height)` and the edges
close a polygon cycle. -/
theorem polygonScanlines_spec {α : Type} (c : α) (p : Int × Int)
    (rest : List (Int × Int)) :
    ∀ (ys : List Int) (img : Img α) (W H : Nat), W = img.width → H = img.height →
      (∀ y ∈ ys, 0 ≤ y ∧ y < (H : Int)) →
      SameOutside img
        (polygonScanlines W (((p :: rest) ++ [p]).zip (((p :: rest) ++ [p]).tail))
          c img ys).1 ∧
      (polygonScanlines W (((p :: rest) ++ [p]).zip (((p :: rest) ++ [p]).tail))
        c img ys).2 = true
  | [], img, W, H, _, _, _ => ⟨sameOutside_refl _, rfl⟩
  | y :: ys, img, W, H, hW, hH, hys => by
    rw [polygonScanlines]
    have hflag := fillPairs_even_ok W y c
      (sortAsc ((((p :: rest) ++ [p]).zip (((p :: rest) ++ [p]).tail)).flatMap
        (polygonContrib y))) img (scanline_intersections_even y p rest)
    have hyb := hys y (List.mem_cons_self y ys)
    have hfill := fillPairs_sameOutside W y c
      (sortAsc ((((p :: rest) ++ [p]).zip (((p :: rest) ++ [p]).tail)).flatMap
        (polygonContrib y))) img hW hyb.1 (by rw [← hH]; exact hyb.2)
    cases hsplit : fillPairs W y c img
        (sortAsc ((((p :: rest) ++ [p]).zip (((p :: rest) ++ [p]).tail)).flatMap
          (polygonContrib y))) with
    | mk img1 flag =>
      rw [hsplit] at hflag hfill
      simp only at hflag hfill
      subst hflag
      have hrec := polygonScanlines_spec c p rest ys img1 W H
        (hW.trans hfill.1.symm) (hH.trans hfill.2.1.symm) (fun z hz => hys z (List.mem_cons_of_mem y hz))
      exact ⟨sameOutside_trans hfill hrec.1, hrec.2⟩

/-- `draw_polygon_with_mut` with any in-bounds plotter modifies no
out-of-bounds pixel when the target height is positive, and completes without
panicking whenever the point list is nondegenerate. -/
theorem drawPolygonWithMut_spec {α : Type}
    (plotter : Img α → ℚ × ℚ → ℚ × ℚ → α → Img α)
    (hplot : ∀ im s e col, SameOutside im (plotter im s e col))
    (img : Img α) (poly : List (Int × Int)) (c : α) (hh : 1 ≤ img.height) :
    SameOutside img (drawPolygonWithMut plotter img poly c).1 ∧
    (∀ (p : Int × Int) (rest : List (Int × Int)), poly = p :: rest →
      (p :: rest).getLast (List.cons_ne_nil p rest) ≠ p →
      (drawPolygonWithMut plotter img poly c).2 = true) := by
  cases poly with
  | nil =>
    exact ⟨sameOutside_refl _, fun p rest h => by cases h⟩
  | cons p rest =>
    simp only [drawPolygonWithMut]
    split_ifs with hlast
    · refine ⟨sameOutside_refl _, ?_⟩
      intro p' rest' heq hne
      cases heq
      exact absurd hlast hne
    · have hbound : ∀ y ∈ intRange
          (max 0 (min (rest.foldl (fun m q => min m q.2) p.2) ((img.height : Int) - 1)))
          (max 0 (min (rest.foldl (fun m q => max m q.2) p.2) ((img.height : Int) - 1))),
          0 ≤ y ∧ y < ((img.height : Nat) : Int) := by
        intro y hy
        have := mem_intRange.mp hy
        omega
      have hs := polygonScanlines_spec c p rest
        (intRange
          (max 0 (min (rest.foldl (fun m q => min m q.2) p.2) ((img.height : Int) - 1)))
          (max 0 (min (rest.foldl (fun m q => max m q.2) p.2) ((img.height : Int) - 1))))
        img img.width img.height rfl rfl hbound
      cases hsc : polygonScanlines img.width
          ((((p :: rest) ++ [p]).zip (((p :: rest) ++ [p]).tail)) ) c img
          (intRange
            (max 0 (min (rest.foldl (fun m q => min m q.2) p.2) ((img.height : Int) - 1)))
            (max 0 (min (rest.foldl (fun m q => max m q.2) p.2) ((img.height : Int) - 1)))) with
      | mk img1 flag =>
        rw [hsc] at hs
        simp only at hs
        obtain ⟨hso, hflag⟩ := hs
        subst hflag
        refine ⟨?_, fun _ _ _ _ => rfl⟩
        exact sameOutside_trans hso
          (sameOutside_foldl _ (fun im e => hplot im _ _ _) _ _)

set_option maxHeartbeats 1000000 in
theorem sameOutside_drawHallowPolygonMut {α : Type} (img : Img α)
    (poly : List (ℚ × ℚ)) (c : α) :
    SameOutside img (drawHallowPolygonMut img poly c).1 := by
  match poly with
  | [] => exact sameOutside_refl _
  | [q] => exact sameOutside_refl _
  | p :: q :: rest =>
    simp only [drawHallowPolygonMut]
    split_ifs with hlast
    · exact sameOutside_refl _
    · have hfold := sameOutside_foldl
        (fun (im : Img α) (e : (ℚ × ℚ) × (ℚ × ℚ)) => drawLineSegmentMut im e.1 e.2 c)
        (fun im e => sameOutside_drawLineSegmentMut im e.1 e.2 c)
        ((p :: q :: rest).zip ((p :: q :: rest).tail)) img
      dsimp only
      exact sameOutside_trans hfold (sameOutside_drawLineSegmentMut _ _ _ _)

/-! ## C1 — rasterizer bounds safety -/

/-- C1 counterexample: on a zero-height target (`cexImg`, 10×0), the filled
polygon `[(0,0), (1,0)]` writes the pixel `(0, 0)`, although `(0, 0)` lies
outside `[0, width) × [0, height) = [0,10) × ∅` — the scanline clip
`max(0, min(y, height-1))` still produces the row `y = 0`.  In Rust this very
write is an out-of-bounds `put_pixel`, which panics; either way the operation
is not bounds-safe on every input. -/
theorem polygon_zero_height_oob_cex :
    (drawPolygonMut cexImg [(0, 0), (1, 0)] true).1.pix 0 0 = true ∧
    cexImg.pix 0 0 = false ∧
    ¬(0 ≤ (0 : Int) ∧ (0 : Int) < (cexImg.width : Int) ∧
      0 ≤ (0 : Int) ∧ (0 : Int) < (cexImg.height : Int)) := by
  refine ⟨by with_unfolding_all rfl, rfl, by decide⟩

/-- C1 (amended): every drawing operation of the engine — lines, antialiased
lines, circles, ellipses, polygons, rectangles, rounded rectangles, Bézier
curves — leaves every out-of-bounds pixel of the target untouched (writes
outside `[0,width) × [0,height)` are silently dropped), provided the target
has positive height where the polygon scanline fill is involved; and the
polygon operations complete without panicking on every nondegenerate point
list (first ≠ last).  Zero-height targets (see the counterexample) and
degenerate polygon inputs (see C3) are the only exceptions. -/
theorem rasterizer_writes_in_bounds :
    ∀ (α : Type) (img : Img α) (c : α),
      (∀ s e, SameOutside img (drawLineSegmentMut img s e c)) ∧
      (∀ s e blend, SameOutside img (drawAntialiasedLineSegmentMut img s e c blend)) ∧
      (∀ center r, SameOutside img (drawHollowCircleMut img center r c)) ∧
      (∀ center r, SameOutside img (drawFilledCircleMut img center r c)) ∧
      (∀ center wr hr, SameOutside img (drawHollowEllipseMut img center wr hr c)) ∧
      (∀ center wr hr, SameOutside img (drawFilledEllipseMut img center wr hr c)) ∧
      (1 ≤ img.height →
        ∀ poly : List (Int × Int),
          SameOutside img (drawPolygonMut img poly c).1 ∧
          (∀ blend, SameOutside img (drawAntialiasedPolygonMut img poly c blend).1) ∧
          (∀ (p : Int × Int) (rest : List (Int × Int)), poly = p :: rest →
            (p :: rest).getLast (List.cons_ne_nil p rest) ≠ p →
            (drawPolygonMut img poly c).2 = true ∧
            ∀ blend, (drawAntialiasedPolygonMut img poly c blend).2 = true)) ∧
      (∀ polyq : List (ℚ × ℚ), SameOutside img (drawHallowPolygonMut img polyq c).1) ∧
      (∀ rect, SameOutside img (drawHollowRectMut img rect c)) ∧
      (∀ rect, SameOutside img (drawFilledRectMut img rect c)) ∧
      (∀ rect radius, SameOutside img (drawFilledRoundedRectMut img rect radius c)) ∧
      (∀ sqrtf s e ca cb, SameOutside img (drawCubicBezierCurveMut sqrtf img s e ca cb c)) := by
  intro α img c
  refine ⟨fun s e => sameOutside_drawLineSegmentMut img s e c,
    fun s e blend => sameOutside_drawAntialiasedLineSegmentMut img s e c blend,
    fun center r => sameOutside_drawHollowCircleMut img center r c,
    fun center r => sameOutside_drawFilledCircleMut img center r c,
    fun center wr hr => sameOutside_drawHollowEllipseMut img center wr hr c,
    fun center wr hr => sameOutside_drawFilledEllipseMut img center wr hr c,
    ?_,
    fun polyq => sameOutside_drawHallowPolygonMut img polyq c,
    fun rect => sameOutside_drawHollowRectMut img rect c,
    fun rect => sameOutside_drawFilledRectMut img rect c,
    fun rect radius => sameOutside_drawFilledRoundedRectMut img rect radius c,
    fun sqrtf s e ca cb => sameOutside_drawCubicBezierCurveMut sqrtf img s e ca cb c⟩
  intro hh poly
  have hline := drawPolygonWithMut_spec
    (fun im s e col => drawLineSegmentMut im s e col)
    (fun im s e col => sameOutside_drawLineSegmentMut im s e col) img poly c hh
  have haa := fun blend : α → α → ℚ → α => drawPolygonWithMut_spec
    (fun im s e col => drawAntialiasedLineSegmentMut im (f32toI32 s.1, f32toI32 s.2)
      (f32toI32 e.1, f32toI32 e.2) col blend)
    (fun im s e col => sameOutside_drawAntialiasedLineSegmentMut im _ _ col blend)
    img poly c hh
  exact ⟨hline.1, fun blend => (haa blend).1,
    fun p rest heq hne => ⟨hline.2 p rest heq hne, fun blend => (haa blend).2 p rest heq hne⟩⟩

/-- Witness for C1 on an 8×8 boolean image with the triangle
`[(1,1), (5,1), (3,4)]`: the filled polygon stays inside bounds and completes
without panicking. -/
theorem rasterizer_writes_in_bounds_witness :
    SameOutside (⟨8, 8, fun _ _ => false⟩ : Img Bool)
      (drawPolygonMut ⟨8, 8, fun _ _ => false⟩ [(1, 1), (5, 1), (3, 4)] true).1 ∧
    (drawPolygonMut (⟨8, 8, fun _ _ => false⟩ : Img Bool)
      [(1, 1), (5, 1), (3, 4)] true).2 = true :=
  ⟨((rasterizer_writes_in_bounds Bool ⟨8, 8, fun _ _ => false⟩ true).2.2.2.2.2.2.1
      (by decide) [(1, 1), (5, 1), (3, 4)]).1,
    (((rasterizer_writes_in_bounds Bool ⟨8, 8, fun _ _ => false⟩ true).2.2.2.2.2.2.1
      (by decide) [(1, 1), (5, 1), (3, 4)]).2.2 (1, 1) [(5, 1), (3, 4)] rfl
      (by decide)).1⟩

/-! ## C4 machinery — Bresenham endpoints and monotonicity -/

theorem f32toI32_intCast (n : Int) : f32toI32 (n : ℚ) = n := by
  unfold f32toI32
  split_ifs <;> simp

/-- The two branches of the iterator's state advance, made explicit. -/
theorem step_spec (s : BresenhamLineIter) :
    (s.error - s.dy < 0 ∧
      s.step = { s with x := s.x + 1, y := s.y + s.yStep, error := s.error - s.dy + s.dx }) ∨
    (0 ≤ s.error - s.dy ∧
      s.step = { s with x := s.x + 1, error := s.error - s.dy }) := by
  simp only [BresenhamLineIter.step]
  split_ifs with h
  · exact Or.inl ⟨h, rfl⟩
  · exact Or.inr ⟨le_of_not_lt h, rfl⟩

theorem step_x (s : BresenhamLineIter) : s.step.x = s.x + 1 := by
  rcases step_spec s with ⟨_, hstep⟩ | ⟨_, hstep⟩ <;> rw [hstep]

theorem step_endX (s : BresenhamLineIter) : s.step.endX = s.endX := by
  rcases step_spec s with ⟨_, hstep⟩ | ⟨_, hstep⟩ <;> rw [hstep]

theorem step_isSteep (s : BresenhamLineIter) : s.step.isSteep = s.isSteep := by
  rcases step_spec s with ⟨_, hstep⟩ | ⟨_, hstep⟩ <;> rw [hstep]

theorem runFrom_succ (s : BresenhamLineIter) (n : Nat) :
    s.runFrom (n + 1) = if s.x > s.endX then []
      else (if s.isSteep then (s.y, s.x) else (s.x, s.y)) :: s.step.runFrom n := rfl

theorem runFrom_ne_nil (s : BresenhamLineIter) (n : Nat) (hx : s.x ≤ s.endX) :
    s.runFrom (n + 1) ≠ [] := by
  rw [runFrom_succ, if_neg (by omega)]
  exact List.cons_ne_nil _ _

/-- The dominant coordinate of the yielded points strictly increases: the
yielded dominant coordinate is always the state's `x`, which advances by one
per `next`. -/
theorem runFrom_chain : ∀ (n : Nat) (s : BresenhamLineIter),
    List.Chain' (· < ·)
      ((s.runFrom n).map (fun p => if s.isSteep then p.2 else p.1))
  | 0, _ => List.chain'_nil
  | n + 1, s => by
    rw [runFrom_succ]
    by_cases hgt : s.x > s.endX
    · rw [if_pos hgt]; exact List.chain'_nil
    · rw [if_neg hgt, List.map_cons, List.chain'_cons']
      constructor
      · intro b hb
        cases n with
        | zero => simp [BresenhamLineIter.runFrom] at hb
        | succ m =>
          rw [runFrom_succ] at hb
          by_cases h2 : s.step.x > s.step.endX
          · rw [if_pos h2] at hb; simp at hb
          · rw [if_neg h2, List.map_cons, List.head?_cons] at hb
            cases hb
            cases hs : s.isSteep <;> simp [hs, step_isSteep, step_x]
      · rw [← step_isSteep s]
        exact runFrom_chain n s.step

/-- Bresenham error invariant: if the window condition
`0 ≤ error - r·dy + k·dx < dx` holds for the remaining run length
`r = end_x - x`, the run's final yielded point is `(end_x, y + y_step · k)`
(transposed when steep).  The invariant pins the total number of `y`-steps
taken over the rest of the run to exactly `k`. -/
theorem runFrom_getLast :
    ∀ (n : Nat) (s : BresenhamLineIter) (k : Int),
      (s.endX - s.x).toNat = n → s.x ≤ s.endX →
      0 ≤ s.dy → s.dy ≤ s.dx → 0 ≤ s.error → s.error < s.dx →
      0 ≤ s.error - ((s.endX - s.x : Int) : ℚ) * s.dy + (k : ℚ) * s.dx →
      s.error - ((s.endX - s.x : Int) : ℚ) * s.dy + (k : ℚ) * s.dx < s.dx →
      (s.runFrom (n + 1)).getLast? =
        some (if s.isSteep then (s.y + s.yStep * k, s.endX)
          else (s.endX, s.y + s.yStep * k))
  | 0, s, k, hn, hx, _hdy0, _hdydx, herr0, herr1, hw0, hw1 => by
    have hex : s.endX = s.x := by omega
    rw [runFrom_succ, if_neg (by omega)]
    have h0 : s.step.runFrom 0 = [] := rfl
    rw [h0]
    have hdx : (0 : ℚ) < s.dx := lt_of_le_of_lt herr0 herr1
    have hr0 : ((s.endX - s.x : Int) : ℚ) = 0 := by rw [hex]; simp
    rw [hr0, zero_mul, sub_zero] at hw0 hw1
    have hk : k = 0 := by
      rcases lt_trichotomy k 0 with hk | hk | hk
      · exfalso
        have hkq : (k : ℚ) ≤ -1 := by exact_mod_cast (by omega : k ≤ -1)
        have hm := mul_le_mul_of_nonneg_right hkq (le_of_lt hdx)
        rw [neg_one_mul] at hm
        linarith
      · exact hk
      · exfalso
        have hkq : (1 : ℚ) ≤ (k : ℚ) := by exact_mod_cast (by omega : 1 ≤ k)
        have hm := mul_le_mul_of_nonneg_right hkq (le_of_lt hdx)
        rw [one_mul] at hm
        linarith
    subst hk
    rw [hex]
    cases hs : s.isSteep <;> simp [hs]
  | n + 1, s, k, hn, hx, hdy0, hdydx, herr0, herr1, hw0, hw1 => by
    rw [runFrom_succ, if_neg (by omega)]
    have hx2 : s.step.x ≤ s.step.endX := by rw [step_x, step_endX]; omega
    obtain ⟨hd, tl, htl⟩ : ∃ hd tl, s.step.runFrom (n + 1) = hd :: tl := by
      cases h : s.step.runFrom (n + 1) with
      | nil => exact absurd h (runFrom_ne_nil _ _ hx2)
      | cons a b => exact ⟨a, b, rfl⟩
    rw [htl, List.getLast?_cons_cons, ← htl]
    have hdxpos : (0 : ℚ) < s.dx := lt_of_le_of_lt herr0 herr1
    have hrcast : ((s.endX - (s.x + 1) : Int) : ℚ) = ((s.endX - s.x : Int) : ℚ) - 1 := by
      push_cast
      ring
    rcases step_spec s with ⟨hneg, hstep⟩ | ⟨hpos, hstep⟩
    · have hrec := runFrom_getLast n s.step (k - 1)
        (by rw [hstep]; simp only []; omega)
        (by rw [hstep]; simp only []; omega)
        (by rw [hstep]; exact hdy0)
        (by rw [hstep]; exact hdydx)
        (by rw [hstep]; simp only []; linarith)
        (by rw [hstep]; simp only []; linarith)
        (by rw [hstep]
            simp only []
            rw [hrcast]
            push_cast at hw0 ⊢
            ring_nf
            ring_nf at hw0
            linarith)
        (by rw [hstep]
            simp only []
            rw [hrcast]
            push_cast at hw1 ⊢
            ring_nf
            ring_nf at hw1
            linarith)
      rw [hrec, hstep]
      cases hs : s.isSteep <;> simp [hs] <;> ring
    · have hrec := runFrom_getLast n s.step k
        (by rw [hstep]; simp only []; omega)
        (by rw [hstep]; simp only []; omega)
        (by rw [hstep]; exact hdy0)
        (by rw [hstep]; exact hdydx)
        (by rw [hstep]; simp only []; linarith)
        (by rw [hstep]; simp only []; linarith)
        (by rw [hstep]
            simp only []
            rw [hrcast]
            push_cast at hw0 ⊢
            ring_nf
            ring_nf at hw0
            linarith)
        (by rw [hstep]
            simp only []
            rw [hrcast]
            push_cast at hw1 ⊢
            ring_nf
            ring_nf at hw1
            linarith)
      rw [hrec, hstep]

/-- Endpoint and monotonicity facts for a normalized integer run: the first
yielded point is `(a, u)`, the last is `(b, v)` (transposed when steep), and
the dominant coordinate strictly increases. -/
theorem run_bresStateOfInts (st : Bool) (a u b v : Int) (hab : a ≤ b)
    (hdy : |v - u| ≤ b - a) :
    (bresStateOfInts st a u b v).run ≠ [] ∧
    (bresStateOfInts st a u b v).run.head? = some (if st then (u, a) else (a, u)) ∧
    (bresStateOfInts st a u b v).run.getLast? = some (if st then (v, b) else (b, v)) ∧
    List.Chain' (· < ·) ((bresStateOfInts st a u b v).run.map
      (fun p => if st then p.2 else p.1)) := by
  have hcount : ((bresStateOfInts st a u b v).endX + 1 -
      (bresStateOfInts st a u b v).x).toNat = (b - a).toNat + 1 := by
    show (b + 1 - a).toNat = (b - a).toNat + 1
    omega
  have hrun : (bresStateOfInts st a u b v).run =
      (bresStateOfInts st a u b v).runFrom ((b - a).toNat + 1) := by
    rw [BresenhamLineIter.run, hcount]
  refine ⟨?_, ?_, ?_, ?_⟩
  · rw [hrun]
    exact runFrom_ne_nil _ _ hab
  · rw [hrun, runFrom_succ, if_neg (by show ¬ a > b; omega), List.head?_cons]
    rfl
  · rcases eq_or_lt_of_le hab with heq | hlt
    · subst heq
      have hone : (a - a).toNat + 1 = 1 := by omega
      have huv : u = v := by
        rw [sub_self] at hdy
        have h0 : |v - u| = 0 := le_antisymm hdy (abs_nonneg _)
        have := abs_eq_zero.mp h0
        omega
      subst huv
      rw [hrun, hone, runFrom_succ, if_neg (by omega)]
      have h0 : (bresStateOfInts st a u a u).step.runFrom 0 = [] := rfl
      rw [h0]
      cases st <;> rfl
    · rw [hrun]
      have habq : (a : ℚ) < (b : ℚ) := by exact_mod_cast hlt
      have hdyq : |(v : ℚ) - (u : ℚ)| = ((|v - u| : Int) : ℚ) := by
        rw [show ((v : ℚ) - (u : ℚ)) = ((v - u : Int) : ℚ) by push_cast; ring,
          ← Int.cast_abs]
      have hdyqle : ((|v - u| : Int) : ℚ) ≤ (b : ℚ) - (a : ℚ) := by
        rw [show ((b : ℚ) - (a : ℚ)) = ((b - a : Int) : ℚ) by push_cast; ring]
        exact_mod_cast hdy
      have hlast := runFrom_getLast ((b - a).toNat) (bresStateOfInts st a u b v) (|v - u|)
        (by show (b - a).toNat = (b - a).toNat; rfl)
        hab
        (by show (0 : ℚ) ≤ |(v : ℚ) - (u : ℚ)|; exact abs_nonneg _)
        (by show |(v : ℚ) - (u : ℚ)| ≤ (b : ℚ) - (a : ℚ); rw [hdyq]; exact hdyqle)
        (by show (0 : ℚ) ≤ ((b : ℚ) - (a : ℚ)) / 2; linarith)
        (by show ((b : ℚ) - (a : ℚ)) / 2 < (b : ℚ) - (a : ℚ); linarith)
        (by show (0 : ℚ) ≤ ((b : ℚ) - (a : ℚ)) / 2 -
              ((b - a : Int) : ℚ) * |(v : ℚ) - (u : ℚ)| + ((|v - u| : Int) : ℚ) * ((b : ℚ) - (a : ℚ))
            rw [hdyq]
            push_cast
            ring_nf
            linarith)
        (by show ((b : ℚ) - (a : ℚ)) / 2 -
              ((b - a : Int) : ℚ) * |(v : ℚ) - (u : ℚ)| + ((|v - u| : Int) : ℚ) * ((b : ℚ) - (a : ℚ)) <
              (b : ℚ) - (a : ℚ)
            rw [hdyq]
            push_cast
            ring_nf
            linarith)
      rw [hlast]
      have hy : u + (if (u : ℚ) < (v : ℚ) then (1 : Int) else -1) * |v - u| = v := by
        split_ifs with huv
        · have : u < v := by exact_mod_cast huv
          rw [abs_of_nonneg (by omega : (0 : Int) ≤ v - u)]
          omega
        · have : ¬ u < v := fun hc => huv (by exact_mod_cast hc)
          rw [abs_of_nonpos (by omega : v - u ≤ (0 : Int))]
          omega
      simp only [bresStateOfInts] at hlast ⊢
      rw [hy]
  · have := runFrom_chain ((b - a).toNat + 1) (bresStateOfInts st a u b v)
    rw [hrun]
    exact this

/-- `BresenhamLineIter::new` on integer-valued endpoints produces exactly the
normalized integer state: transposed when the segment is steep, endpoints
swapped so the dominant coordinate increases. -/
theorem new_intCast (x0 y0 x1 y1 : Int) :
    BresenhamLineIter.new ((x0 : ℚ), (y0 : ℚ)) ((x1 : ℚ), (y1 : ℚ)) =
      if (y1 - y0).natAbs > (x1 - x0).natAbs then
        if y0 > y1 then bresStateOfInts true y1 x1 y0 x0
        else bresStateOfInts true y0 x0 y1 x1
      else
        if x0 > x1 then bresStateOfInts false x1 y1 x0 y0
        else bresStateOfInts false x0 y0 x1 y1 := by
  have hc1 : ((y1 : ℚ) - (y0 : ℚ)) = ((y1 - y0 : Int) : ℚ) := by push_cast; ring
  have hc2 : ((x1 : ℚ) - (x0 : ℚ)) = ((x1 - x0 : Int) : ℚ) := by push_cast; ring
  have hq1 : (|(y1 : ℚ) - (y0 : ℚ)| > |(x1 : ℚ) - (x0 : ℚ)|) ↔
      ((y1 - y0).natAbs > (x1 - x0).natAbs) := by
    rw [hc1, hc2, ← Int.cast_abs, ← Int.cast_abs,
      Int.abs_eq_natAbs (y1 - y0), Int.abs_eq_natAbs (x1 - x0)]
    constructor
    · intro h
      exact_mod_cast h
    · intro h
      exact_mod_cast h
  by_cases hst : (y1 - y0).natAbs > (x1 - x0).natAbs
  · have hd : decide (|(y1 : ℚ) - (y0 : ℚ)| > |(x1 : ℚ) - (x0 : ℚ)|) = true :=
      decide_eq_true (hq1.mpr hst)
    rw [if_pos hst]
    by_cases hsw : y0 > y1
    · rw [if_pos hsw]
      have hswq : (y0 : ℚ) > (y1 : ℚ) := by exact_mod_cast hsw
      simp [BresenhamLineIter.new, bresStateOfInts, hd, hswq, f32toI32_intCast]
    · rw [if_neg hsw]
      have hswq : ¬ ((y0 : ℚ) > (y1 : ℚ)) := fun hc => hsw (by exact_mod_cast hc)
      simp [BresenhamLineIter.new, bresStateOfInts, hd, hswq, f32toI32_intCast]
  · have hd : decide (|(y1 : ℚ) - (y0 : ℚ)| > |(x1 : ℚ) - (x0 : ℚ)|) = false :=
      decide_eq_false (fun hc => hst (hq1.mp hc))
    rw [if_neg hst]
    by_cases hsw : x0 > x1
    · rw [if_pos hsw]
      have hswq : (x0 : ℚ) > (x1 : ℚ) := by exact_mod_cast hsw
      simp [BresenhamLineIter.new, bresStateOfInts, hd, hswq, f32toI32_intCast]
    · rw [if_neg hsw]
      have hswq : ¬ ((x0 : ℚ) > (x1 : ℚ)) := fun hc => hsw (by exact_mod_cast hc)
      simp [BresenhamLineIter.new, bresStateOfInts, hd, hswq, f32toI32_intCast]

/-- C4, counterexample: for `start = (0.9, 0.9)`, `end = (2, 2)` the iterator's
first yielded point is `(0, 0)` — the endpoint truncated by `as i32` — while
rounding the endpoints to the nearest integer gives `(1, 1)` and `(2, 2)`, so
the first point is neither rounded endpoint. -/
theorem bresenham_round_endpoint_cex :
    (bresenhamPoints ((9 : ℚ) / 10, (9 : ℚ) / 10) ((2 : ℚ), (2 : ℚ))).head? =
      some ((0 : Int), (0 : Int)) ∧
    (rustRound ((9 : ℚ) / 10), rustRound ((9 : ℚ) / 10)) = ((1 : Int), (1 : Int)) ∧
    (rustRound (2 : ℚ), rustRound (2 : ℚ)) = ((2 : Int), (2 : Int)) ∧
    ((0 : Int), (0 : Int)) ≠ ((1 : Int), (1 : Int)) ∧
    ((0 : Int), (0 : Int)) ≠ ((2 : Int), (2 : Int)) := by
  refine ⟨by with_unfolding_all rfl, by with_unfolding_all rfl,
    by with_unfolding_all rfl, by decide, by decide⟩

/-- C4 (amended): on integer-valued endpoints the Bresenham iterator yields a
nonempty run whose first and last points are exactly the two endpoints —
possibly exchanged by the octant normalization — and whose dominant coordinate
strictly increases along the run.  (On non-integer endpoints the iterator
truncates the coordinates toward zero with `as i32`; it does not round.) -/
theorem bresenham_integer_endpoints_spec (x0 y0 x1 y1 : Int) :
    bresenhamPoints ((x0 : ℚ), (y0 : ℚ)) ((x1 : ℚ), (y1 : ℚ)) ≠ [] ∧
    ((bresenhamPoints ((x0 : ℚ), (y0 : ℚ)) ((x1 : ℚ), (y1 : ℚ))).head? = some (x0, y0) ∧
       (bresenhamPoints ((x0 : ℚ), (y0 : ℚ)) ((x1 : ℚ), (y1 : ℚ))).getLast? = some (x1, y1) ∨
     (bresenhamPoints ((x0 : ℚ), (y0 : ℚ)) ((x1 : ℚ), (y1 : ℚ))).head? = some (x1, y1) ∧
       (bresenhamPoints ((x0 : ℚ), (y0 : ℚ)) ((x1 : ℚ), (y1 : ℚ))).getLast? = some (x0, y0)) ∧
    List.Chain' (· < ·) ((bresenhamPoints ((x0 : ℚ), (y0 : ℚ)) ((x1 : ℚ), (y1 : ℚ))).map
      (fun p => if (y1 - y0).natAbs > (x1 - x0).natAbs then p.2 else p.1)) := by
  simp only [bresenhamPoints, new_intCast]
  by_cases hst : (y1 - y0).natAbs > (x1 - x0).natAbs
  · simp only [if_pos hst]
    by_cases hsw : y0 > y1
    · simp only [if_pos hsw]
      have hab : y1 ≤ y0 := le_of_lt hsw
      have hdy : |x0 - x1| ≤ y0 - y1 := by
        rw [Int.abs_eq_natAbs]
        omega
      obtain ⟨h1, h2, h3, h4⟩ := run_bresStateOfInts true y1 x1 y0 x0 hab hdy
      exact ⟨h1, Or.inr ⟨by simpa using h2, by simpa using h3⟩, by simpa using h4⟩
    · simp only [if_neg hsw]
      have hab : y0 ≤ y1 := by omega
      have hdy : |x1 - x0| ≤ y1 - y0 := by
        rw [Int.abs_eq_natAbs]
        omega
      obtain ⟨h1, h2, h3, h4⟩ := run_bresStateOfInts true y0 x0 y1 x1 hab hdy
      exact ⟨h1, Or.inl ⟨by simpa using h2, by simpa using h3⟩, by simpa using h4⟩
  · simp only [if_neg hst]
    by_cases hsw : x0 > x1
    · simp only [if_pos hsw]
      have hab : x1 ≤ x0 := le_of_lt hsw
      have hdy : |y0 - y1| ≤ x0 - x1 := by
        rw [Int.abs_eq_natAbs]
        omega
      obtain ⟨h1, h2, h3, h4⟩ := run_bresStateOfInts false x1 y1 x0 y0 hab hdy
      exact ⟨h1, Or.inr ⟨by simpa using h2, by simpa using h3⟩, by simpa using h4⟩
    · simp only [if_neg hsw]
      have hab : x0 ≤ x1 := by omega
      have hdy : |y1 - y0| ≤ x1 - x0 := by
        rw [Int.abs_eq_natAbs]
        omega
      obtain ⟨h1, h2, h3, h4⟩ := run_bresStateOfInts false x0 y0 x1 y1 hab hdy
      exact ⟨h1, Or.inl ⟨by simpa using h2, by simpa using h3⟩, by simpa using h4⟩
